import Mathlib

/-!
# Verification of the content-analysis orchestration pipeline

Shallow embedding of `app/services/ai_service.py`.

Conventions:
* Python `str` is modelled as `List Char` (a sequence of code points);
  named string constants are written with `String.toList`.
* Python whitespace handling (`str.strip`, `str.split()`) and the regex
  classes (`\b`, `\w`) are modelled at ASCII granularity, which covers the
  whole behaviour exercised by the source (all keyword lists, sentinels and
  label tokens are ASCII).
* Upstream HTTP interaction is modelled by per-candidate-model outcome values
  (`CallOutcome`): the status code together with the parsed JSON body, or a
  marker for a raised transport/parse exception.  JSON bodies are modelled by
  the inductive `JVal`; JSON numbers are modelled as rationals (only their
  ordering is ever used by the source).
* Fallible Python code is modelled with `Option`/sum-like result types; a
  caught-and-absorbed exception is an explicit constructor, and the top-level
  `raise` statements of `analyze_text` are constructors of `AnalyzeOutcome`.
-/

/-- `SentimentType` from `app/models.py`: the three-valued sentiment enum. -/
inductive SentimentType where
  | positive
  | negative
  | neutral
deriving DecidableEq

/-- ASCII whitespace, the character class used by Python `str.strip()` /
`str.split()` (restricted to ASCII, see header). -/
def isWS (c : Char) : Bool :=
  c = ' ' || c = '\t' || c = '\n' || c = '\r' || c = '\x0b' || c = '\x0c'

/-- Sentence-terminal punctuation: the regex class `[.!?]` used in
`_generate_fallback_summary`. -/
def isPunct (c : Char) : Bool :=
  c = '.' || c = '!' || c = '?'

/-- Word character: the regex class `\w` (ASCII: `[a-zA-Z0-9_]`), which
defines the word boundaries `\b` used in `_detect_sentiment_keywords`. -/
def isWordChar (c : Char) : Bool :=
  c.isAlphanum || c = '_'

/-- Python `str.strip()`: drop whitespace from both ends. -/
def pyStrip (l : List Char) : List Char :=
  ((l.dropWhile isWS).reverse.dropWhile isWS).reverse

/-- Helper for `pySplitWS`: accumulates the current word (reversed) while
scanning; words are flushed at whitespace. -/
def wordsAux : List Char → List Char → List (List Char)
  | cur, [] => if cur = [] then [] else [cur.reverse]
  | cur, c :: rest =>
    if isWS c then
      if cur = [] then wordsAux [] rest else cur.reverse :: wordsAux [] rest
    else
      wordsAux (c :: cur) rest

/-- Python `str.split()` with no argument: split on runs of whitespace,
discarding empty pieces. -/
def pySplitWS (l : List Char) : List (List Char) :=
  wordsAux [] l

/-- Python `" ".join(words)`. -/
def pyJoin : List (List Char) → List Char
  | [] => []
  | [w] => w
  | w :: ws => w ++ ' ' :: pyJoin ws

/-- Python `line.startswith(p)` / list prefix test as used below, and the
`text[:n]` slice is `List.take`. `str.endswith(('.', '!', '?'))` is a test on
the last character. -/
def endsPunct (l : List Char) : Bool :=
  match l.getLast? with
  | some c => isPunct c
  | none => false

/-- Helper for `removeAll`: while `skip > 0` the scanner is still consuming
the characters of a removed occurrence. -/
def removeAllAux (pat : List Char) : Nat → List Char → List Char
  | _, [] => []
  | Nat.succ k, _ :: rest => removeAllAux pat k rest
  | 0, c :: rest =>
    if pat ≠ [] ∧ pat.isPrefixOf (c :: rest) then
      removeAllAux pat (pat.length - 1) rest
    else
      c :: removeAllAux pat 0 rest

/-- Python `s.replace(pat, "")` (left-to-right, non-overlapping removal of
every occurrence of `pat`), used by `analyze_with_openai` to strip the
`Summary:` / `Sentiment:` tags. -/
def removeAll (pat : List Char) (l : List Char) : List Char :=
  removeAllAux pat 0 l

/-- Python `content.split("\n")`: split on each newline, keeping empties. -/
def splitLinesAux : List Char → List Char → List (List Char)
  | cur, [] => [cur.reverse]
  | cur, c :: rest =>
    if c = '\n' then cur.reverse :: splitLinesAux [] rest
    else splitLinesAux (c :: cur) rest

def splitLines (l : List Char) : List (List Char) :=
  splitLinesAux [] l

/-- The boundary-anchored match test at the current position: the previous
character (tracked as `prevW : Bool`, whether it was a word character) must
not be a word character, `w` must occur here, and the character following the
occurrence must not be a word character.  This is `\b w \b` for the purely
alphabetic keywords the source feeds to `re.findall` (see `isWordChar`). -/
def anchorHere (w : List Char) (prevW : Bool) (l : List Char) : Bool :=
  !prevW && w.isPrefixOf l && (match l.drop w.length with
    | [] => true
    | d :: _ => !isWordChar d)

/-- `len(re.findall(r'\b' + re.escape(word) + r'\b', text))`: the
left-to-right non-overlapping scan of `re.findall`.  While `skip > 0` the
scanner is still consuming the characters of a previous match.
`re.escape` is the identity on the alphabetic keywords used. -/
def scanAux (w : List Char) : Nat → Bool → List Char → Nat
  | _, _, [] => 0
  | Nat.succ k, _, c :: rest => scanAux w k (isWordChar c) rest
  | 0, prevW, c :: rest =>
    if anchorHere w prevW (c :: rest) then
      1 + scanAux w (w.length - 1) (isWordChar c) rest
    else
      scanAux w 0 (isWordChar c) rest

/-- Number of `re.findall` matches of `\b w \b` in `t` (start of string:
no preceding word character). -/
def countKeyword (w : List Char) (t : List Char) : Nat :=
  scanAux w 0 false t

/-- Specification-side count: the number of *positions* of `t` at which a
whole-word (boundary-anchored) occurrence of `w` starts.  Proven equal to
`countKeyword` for the nonempty all-word-character keywords the code uses
(`scanAux_eq_posCountAux`). -/
def posCountAux (w : List Char) : Bool → List Char → Nat
  | _, [] => 0
  | prevW, c :: rest =>
    (if anchorHere w prevW (c :: rest) then 1 else 0) + posCountAux w (isWordChar c) rest

def wholeWordOccurrences (w : List Char) (t : List Char) : Nat :=
  posCountAux w false t

/-- `positive_words` from `_detect_sentiment_keywords`, verbatim. -/
def positive_words : List String :=
  ["love", "loved", "loving", "amazing", "amazed", "great", "excellent",
   "wonderful", "fantastic", "perfect", "best", "awesome", "outstanding",
   "good", "happy", "pleased", "delighted", "satisfied", "brilliant",
   "superb", "marvelous", "incredible", "beautiful", "gorgeous", "stunning",
   "fabulous", "terrific", "magnificent", "exceptional", "remarkable",
   "impressive", "delicious", "tasty", "yummy", "enjoy", "enjoyed", "enjoying"]

/-- `negative_words` from `_detect_sentiment_keywords`, verbatim (note:
`"disgusting"` appears twice, as in the source). -/
def negative_words : List String :=
  ["hate", "hated", "hating", "terrible", "awful", "bad", "worst",
   "disappointed", "horrible", "poor", "disgusting", "sad", "angry",
   "frustrated", "annoyed", "upset", "disgusted", "dreadful", "pathetic",
   "useless", "worthless", "garbage", "trash", "disgusting", "nasty",
   "unhappy", "miserable", "depressed", "furious", "rage", "annoying"]

/-- The accumulation loops `positive_count += matches` / `negative_count += matches`. -/
def keywordScore (ws : List String) (t : List Char) : Nat :=
  ws.foldl (fun acc w => acc + countKeyword w.toList t) 0

/-- Specification-side score, using position counts. -/
def specKeywordScore (ws : List String) (t : List Char) : Nat :=
  ws.foldl (fun acc w => acc + wholeWordOccurrences w.toList t) 0

/-- `_detect_sentiment_keywords` from the source: lower-case, count
whole-word keyword matches, compare. -/
def detect_sentiment_keywords (text : List Char) : SentimentType :=
  let text_lower := text.map Char.toLower
  let positive_count := keywordScore positive_words text_lower
  let negative_count := keywordScore negative_words text_lower
  if negative_count < positive_count then SentimentType.positive
  else if positive_count < negative_count then SentimentType.negative
  else SentimentType.neutral

/-- `_generate_fallback_summary` from the source.  `re.split(r'[.!?]+', text)`
always returns at least one element and its first element is exactly the
maximal prefix of `text` free of `.`, `!`, `?`; only that first element is
used by the source (the `len(sentences) > 0` guard is always true), so the
first sentence is modelled with `takeWhile`. -/
def generate_fallback_summary (text : List Char) : List Char :=
  if text = [] ∨ pyStrip text = [] then "No text provided".toList
  else
    let t := pyStrip text
    let first_sentence := pyStrip (t.takeWhile (fun c => !isPunct c))
    if 15 < first_sentence.length then
      if endsPunct first_sentence then first_sentence else first_sentence ++ ['.']
    else
      let words := (pySplitWS t).take 30
      let summary := pyJoin words
      if 30 < (pySplitWS t).length then summary ++ "...".toList else summary

/-! ## JSON payloads and the per-model call outcomes -/

/-- Parsed JSON body of an upstream response: just enough structure for the
shapes handled by the source (object, array, string; numbers are modelled as
rationals since only their ordering is used; `other` stands for any other
JSON value — null, booleans — which every branch of the source treats as an
unrecognized shape). -/
inductive JVal where
  | str (s : List Char)
  | num (q : ℚ)
  | list (xs : List JVal)
  | obj (fields : List (String × JVal))
  | other

/-- Python `d["k"]` / `"k" in d` on a JSON object (keys are unique in the
payloads of interest, so first-match association lookup is faithful). -/
def jLookup (k : String) : List (String × JVal) → Option JVal
  | [] => none
  | p :: ps => if p.1 = k then some p.2 else jLookup k ps

/-- `isinstance(d, dict) and "error" in d`. -/
def isErrObj : JVal → Bool
  | JVal.obj fs => (jLookup "error" fs).isSome
  | _ => false

/-- The outcome of one per-candidate-model HTTP call, as distinguished by the
source's status-code branches.  `exn` models a raised transport exception,
`okBadJson` a 200 whose `response.json()` raised, `gone none` a 410 whose
body was not JSON.  (The 503/404/`otherStatus` bodies are only logged by the
source, so they carry no payload here.) -/
inductive CallOutcome where
  | exn
  | ok (body : JVal)
  | okBadJson
  | loading
  | notFound
  | gone (body : Option JVal)
  | otherStatus

/-- Python truthiness of a JSON value (`if summary:` and the `or`
operator).  JSON booleans are modelled as the numbers 0/1 — Python `bool` is
an `int` subclass with the same truthiness, ordering and (non-)slicing
behaviour. -/
def jTruthy : JVal → Bool
  | JVal.str s => !s.isEmpty
  | JVal.num q => decide (q ≠ 0)
  | JVal.list xs => !xs.isEmpty
  | JVal.obj fs => !fs.isEmpty
  | JVal.other => false

/-- Whether `v[:n]` succeeds: slicing works on strings and lists, and raises
`TypeError` on numbers, objects, booleans and null. -/
def jSliceable : JVal → Bool
  | JVal.str _ => true
  | JVal.list _ => true
  | _ => false

def jIsStr : JVal → Bool
  | JVal.str _ => true
  | _ => false

/-- Python `summary == "<lit>"` for a dynamically typed `summary`: true
exactly when the value is that very string (a non-string value never equals
a string). -/
def jEqStrLit (v : JVal) (s : List Char) : Bool :=
  match v with
  | JVal.str t => t == s
  | _ => false

/-- The effect of one response body on the `summary` variable: `skip` is the
explicit `continue` taken before the `if summary:` check (a dict carrying
`"error"`); `keep` leaves the variable untouched but control still reaches
the `if summary:` check; `assign v` is `summary = v` — the raw payload value
of **whatever type**, with `assign none` modelling an assignment of Python
`None` (a JSON `null` field value or a double `.get` miss). -/
inductive ParseEffect where
  | skip
  | keep
  | assign (v : Option JVal)

/-- Python `a or b` on two `.get` results: the first operand is kept when it
is truthy, whatever its type; otherwise the second is taken as-is. -/
def pyOrJ (a b : Option JVal) : Option JVal :=
  match a with
  | some v => if jTruthy v then some v else b
  | none => b

/-- `obj.get("summary_text") or obj.get("generated_text")`. -/
def getSummaryKeys (gs : List (String × JVal)) : Option JVal :=
  pyOrJ (jLookup "summary_text" gs) (jLookup "generated_text" gs)

/-- The shape handling shared by the 200 and 410 summary parsers (source
lines 163–194 and 223–255): dict with `error` ⇒ explicit continue; dict with
`outputs` whose first element is a dict (`summary_text`/`generated_text`
keys, `or`-combined) or a bare string; dict carrying `summary_text` /
`generated_text` directly — the raw value is assigned whatever its type;
list whose first element is a dict or a bare string. -/
def parseCommonEffect : JVal → ParseEffect
  | JVal.obj fs =>
    if (jLookup "error" fs).isSome then ParseEffect.skip
    else
      (match jLookup "outputs" fs with
       | some (JVal.list (JVal.obj gs :: _)) => ParseEffect.assign (getSummaryKeys gs)
       | some (JVal.list (JVal.str s :: _)) => ParseEffect.assign (some (JVal.str s))
       | some _ => ParseEffect.keep
       | none =>
         match jLookup "summary_text" fs with
         | some v => ParseEffect.assign (some v)
         | none =>
           match jLookup "generated_text" fs with
           | some v => ParseEffect.assign (some v)
           | none => ParseEffect.keep)
  | JVal.list (JVal.obj gs :: _) => ParseEffect.assign (getSummaryKeys gs)
  | JVal.list (JVal.str s :: _) => ParseEffect.assign (some (JVal.str s))
  | _ => ParseEffect.keep

/-- The 200 summary parser additionally accepts a bare string body. -/
def parseSummary200 (d : JVal) : ParseEffect :=
  match d with
  | JVal.str s => ParseEffect.assign (some (JVal.str s))
  | _ => parseCommonEffect d

/-- The 410 summary parser has no bare-string case (source lines 233–251). -/
def parseSummary410 (d : JVal) : ParseEffect :=
  match d with
  | JVal.str _ => ParseEffect.keep
  | _ => parseCommonEffect d

/-- The `if summary: print(f"...{summary[:100]}..."); break` epilogue of one
loop iteration, applied to the current value of the `summary` variable: a
truthy sliceable value prints fine and breaks the loop; a truthy
*non-sliceable* value makes the print raise (caught by the per-model handler
⇒ continue) and is retained as a stale value; a falsy value is retained
without a break. -/
def summaryCheckBreak (s : Option JVal) : Option JVal × Bool :=
  match s with
  | none => (none, false)
  | some v =>
    if jTruthy v then
      (if jSliceable v then (some v, true) else (some v, false))
    else (some v, false)

def applyEffect (s0 : Option JVal) : ParseEffect → Option JVal × Bool
  | ParseEffect.skip => (s0, false)
  | ParseEffect.keep => summaryCheckBreak s0
  | ParseEffect.assign v => summaryCheckBreak v

/-- One iteration of the summary-model loop: the new value of the `summary`
variable (which persists across iterations) and whether the loop breaks.
503/404/other statuses, transport exceptions and unparsable bodies leave the
variable untouched and continue. -/
def summaryStep (s0 : Option JVal) : CallOutcome → Option JVal × Bool
  | CallOutcome.ok d => applyEffect s0 (parseSummary200 d)
  | CallOutcome.gone (some d) => applyEffect s0 (parseSummary410 d)
  | _ => (s0, false)

/-- The whole summary-model loop (`for model in summary_models`): fold the
iterations, stopping at a break; the value is the final content of the
`summary` variable (line 139 initializes it to `None`). -/
def summaryScan (s : Option JVal) : List CallOutcome → Option JVal
  | [] => s
  | o :: rest =>
    match summaryStep s o with
    | (s2, true) => s2
    | (s2, false) => summaryScan s2 rest

/-- Truthiness of the `summary` variable. -/
def sTruthy : Option JVal → Bool
  | none => false
  | some v => jTruthy v

/-- The break value of one loop iteration, restricted to strings. -/
def breakStr : Option JVal × Bool → Option (List Char)
  | (some (JVal.str s), true) => some s
  | (_, _) => none

/-- The *usable value* of one candidate: the string it breaks the loop with
when attempted with a clean (`None`) summary variable. -/
def summaryAttempt (o : CallOutcome) : Option (List Char) :=
  breakStr (summaryStep Option.none o)

/-- A candidate outcome is string-clean when its body can only assign a
string (or Python `None`) to the `summary` variable.  Outside this class the
source's behaviour degrades: a truthy non-string either breaks the loop with
a non-string summary (sliceable) or persists as a stale value
(non-sliceable). -/
def effectClean : ParseEffect → Bool
  | ParseEffect.assign (some v) => jIsStr v
  | _ => true

def strClean : CallOutcome → Bool
  | CallOutcome.ok d => effectClean (parseSummary200 d)
  | CallOutcome.gone (some d) => effectClean (parseSummary410 d)
  | _ => true

/-! ## Sentiment cascade -/

/-- `x.get("score", 0)` for one element of the scores list: `none` models the
attempt-aborting exceptions of the source (a non-dict element, or a
non-numeric score making the `max` comparison raise — see header). -/
def entryScore : JVal → Option ℚ
  | JVal.obj fs =>
    (match jLookup "score" fs with
     | none => some 0
     | some (JVal.num q) => some q
     | some _ => none)
  | _ => none

/-- Pair every element of the scores list with its score, failing if any
element is malformed (in the source the failure surfaces as an exception
inside `max(...)`, caught by the per-model handler). -/
def scoreEntries : List JVal → Option (List (JVal × ℚ))
  | [] => some []
  | v :: vs =>
    match entryScore v with
    | some q => (scoreEntries vs).map (fun ps => (v, q) :: ps)
    | none => none

/-- Python `max(scores_list, key=lambda x: x.get("score", 0))`: left fold
keeping the current element unless a strictly greater key appears — hence the
first occurrence wins among ties. -/
def pyMaxBy (p : JVal × ℚ) (ps : List (JVal × ℚ)) : JVal × ℚ :=
  ps.foldl (fun best x => if best.2 < x.2 then x else best) p

/-- `max_label.get("label", "")` restricted to string labels (a non-string
label makes `.upper()` raise, aborting the attempt — modelled by `none`). -/
def labelOf : JVal → Option (List Char)
  | JVal.obj fs =>
    (match jLookup "label" fs with
     | none => some []
     | some (JVal.str s) => some s
     | some _ => none)
  | _ => none

/-- Python substring containment `pat in s`. -/
def containsSub (pat : List Char) : List Char → Bool
  | [] => pat.isEmpty
  | c :: rest => pat.isPrefixOf (c :: rest) || containsSub pat rest

/-- The label-to-enum mapping from the source: upper-case the label and test
*substring containment* (`"POSITIVE" in label_upper or ...`), positive tokens
first. -/
def labelToSentiment (lab : List Char) : SentimentType :=
  let u := lab.map Char.toUpper
  if containsSub "POSITIVE".toList u || containsSub "POS".toList u ||
     containsSub "LABEL_2".toList u || containsSub "LABEL_1".toList u then
    SentimentType.positive
  else if containsSub "NEGATIVE".toList u || containsSub "NEG".toList u ||
     containsSub "LABEL_0".toList u then
    SentimentType.negative
  else SentimentType.neutral

/-- Extraction of `scores_list` from a sentiment body (source lines 301–317):
dict with `outputs` ⇒ `outputs[0]`; top-level list whose first element is a
list ⇒ that first element, otherwise the whole list; anything else ⇒ none. -/
def extractScoresList : JVal → Option JVal
  | JVal.obj fs =>
    (match jLookup "outputs" fs with
     | some (JVal.list (x :: _)) => some x
     | _ => none)
  | JVal.list (x :: xs) =>
    (match x with
     | JVal.list _ => some x
     | _ => some (JVal.list (x :: xs)))
  | _ => none

/-- Core of one sentiment attempt, shared verbatim by the 200 branch and the
410 branch: extract the scores list (it must be a nonempty list), take the
score-maximal entry, map its label; `some` (⇒ break) exactly for Positive /
Negative, `none` (⇒ continue, with the `sentiment` variable left at / reset
to Neutral) otherwise. -/
def sentAttemptCore (d : JVal) : Option SentimentType :=
  match extractScoresList d with
  | some (JVal.list (e :: es)) =>
    (match scoreEntries (e :: es) with
     | some (p :: ps) =>
       (match labelOf (pyMaxBy p ps).1 with
        | some lab =>
          (match labelToSentiment lab with
           | SentimentType.positive => some SentimentType.positive
           | SentimentType.negative => some SentimentType.negative
           | SentimentType.neutral => none)
        | none => none)
     | _ => none)
  | _ => none

/-- One iteration of the sentiment-model loop.  On a 410 the source first
discards dict bodies carrying an `error` key, then runs the same extraction
as the 200 branch. -/
def sentimentAttempt : CallOutcome → Option SentimentType
  | CallOutcome.ok d => sentAttemptCore d
  | CallOutcome.gone (some d) => if isErrObj d then none else sentAttemptCore d
  | _ => none

/-- The sentiment model cascade: `sentiment` starts at Neutral and is only
ever replaced by a breaking Positive/Negative. -/
def sentimentCascade : List CallOutcome → SentimentType
  | [] => SentimentType.neutral
  | o :: rest =>
    match sentimentAttempt o with
    | some s => s
    | none => sentimentCascade rest

/-! ## `analyze_with_huggingface`, `analyze_with_openai`, `analyze_text` -/

/-- The `{"summary": ..., "sentiment": ...}` dict returned by the analysis
functions (`AnalysisResult` of the specification). -/
structure AnalysisResult where
  summary : JVal
  sentiment : SentimentType

/-- The upstream environment one `analyze_with_huggingface` call runs
against: the outcome of the call to each candidate summary model and each
candidate sentiment model, in cascade order. -/
structure HFEnv where
  summaryOutcomes : List CallOutcome
  sentimentOutcomes : List CallOutcome

/-- The value of the `summary` variable right after the local-fallback step
(source lines 410–414): a falsy loop result is replaced by
`_generate_fallback_summary(text)` (on the *full* text — only the request
payloads are truncated to 512 characters), while a truthy value — a genuine
string or a stale non-string — is kept as it is.  The result dict's summary
is therefore a dynamically typed value. -/
def hfSummaryVal (text : List Char) (env : HFEnv) : JVal :=
  match summaryScan Option.none env.summaryOutcomes with
  | some v => if jTruthy v then v else JVal.str (generate_fallback_summary text)
  | none => JVal.str (generate_fallback_summary text)

/-- Lines 417–419: substitute the `"Summary not available"` literal for a
falsy summary. -/
def hfSummaryGuarded (text : List Char) (env : HFEnv) : JVal :=
  if jTruthy (hfSummaryVal text env) then hfSummaryVal text env
  else JVal.str ("Summary not available".toList)

/-- Lines 421–424: the keyword fallback runs when the cascade sentiment is
Neutral and the summary is not (the string) `"Summary not available"` —
Python `!=` between a non-string summary and that literal is true. -/
def hfSentiment (text : List Char) (env : HFEnv) : SentimentType :=
  let sentiment0 := sentimentCascade env.sentimentOutcomes
  if sentiment0 = SentimentType.neutral ∧
     jEqStrLit (hfSummaryGuarded text env) ("Summary not available".toList) = false then
    detect_sentiment_keywords text
  else sentiment0

/-- What one `analyze_with_huggingface` call does: return the result dict,
or raise out of the function.  The only statement past the per-model `try`
blocks that can raise is the final log line 426, whose `summary[:50]` slice
raises `TypeError` exactly when the summary is truthy and non-sliceable (a
stale number/object retained by the loop). -/
inductive HFResult where
  | ok (r : AnalysisResult)
  | raised

/-- `analyze_with_huggingface` (source lines 109–431) with the two model
loops abstracted by their outcome lists.  The `HUGGINGFACE_API_KEY` guard
cannot fire on the paths `analyze_text` takes (it only calls in when the key
is truthy).  Lines 410–424 are `hfSummaryVal` / `hfSummaryGuarded` /
`hfSentiment`; line 426 is the raise check. -/
def analyze_with_huggingface (text : List Char) (env : HFEnv) : HFResult :=
  let summary := hfSummaryGuarded text env
  let sentiment := hfSentiment text env
  if jTruthy summary = true ∧ jSliceable summary = false then HFResult.raised
  else HFResult.ok { summary := summary, sentiment := sentiment }

/-- The `is_fallback` heuristic of `analyze_text` (source lines 546–550):
word count ≤ 30, or ends with `"..."`, or equals `text[:len(summary)]`. -/
def is_fallback_summary (summary text : List Char) : Bool :=
  decide ((pySplitWS summary).length ≤ 30) ||
  "...".toList.isSuffixOf summary ||
  summary == text.take summary.length

/-- Outcome of the one `analyze_with_openai` HTTP exchange: `exn` models any
raised error (`raise_for_status`, transport, missing response keys); `ok`
carries the assistant message content that is then line-parsed. -/
inductive OpenAIOutcome where
  | exn
  | ok (content : List Char)

/-- `summary or "Summary not available"`: Python `or` falls through to the
default on `None` and on the empty string. -/
def pyOrDefault : Option (List Char) → List Char
  | some s => if s = [] then "Summary not available".toList else s
  | none => "Summary not available".toList

/-- The line parser of `analyze_with_openai` (source lines 84–106): scan the
lines, remembering the last `Summary:` and `Sentiment:` lines; map the
sentiment by substring containment; apply the `or`-defaults.  The parsed
summary is always a genuine string. -/
def parse_openai_content (content : List Char) : AnalysisResult :=
  let step := fun (acc : Option (List Char) × Option SentimentType) (line : List Char) =>
    if "Summary:".toList.isPrefixOf line then
      (some (pyStrip (removeAll "Summary:".toList line)), acc.2)
    else if "Sentiment:".toList.isPrefixOf line then
      let s := pyStrip (removeAll "Sentiment:".toList line)
      (acc.1,
       some (if containsSub "Positive".toList s then SentimentType.positive
             else if containsSub "Negative".toList s then SentimentType.negative
             else SentimentType.neutral))
    else acc
  let r := (splitLines content).foldl step (none, none)
  { summary := JVal.str (pyOrDefault r.1),
    sentiment := r.2.getD SentimentType.neutral }

/-- `analyze_with_openai` (source lines 29–106): `none` models the call
raising (caught by `analyze_text`). -/
def analyze_with_openai : OpenAIOutcome → Option AnalysisResult
  | OpenAIOutcome.exn => none
  | OpenAIOutcome.ok content => some (parse_openai_content content)

/-- The module-level configuration: `os.getenv` results for the two keys
(`none` = variable unset). -/
structure Config where
  hf_key : Option (List Char)
  openai_key : Option (List Char)

/-- `huggingface_configured` (source lines 534–537):
`HUGGINGFACE_API_KEY and HUGGINGFACE_API_KEY.strip() != ""`. -/
def hfConfigured (cfg : Config) : Bool :=
  match cfg.hf_key with
  | none => false
  | some k => !k.isEmpty && !(pyStrip k).isEmpty

/-- `openai_configured` (source lines 568–572). -/
def oaConfigured (cfg : Config) : Bool :=
  match cfg.openai_key with
  | none => false
  | some k =>
    !k.isEmpty && !(k == "your-openai-api-key-here".toList) && !(pyStrip k).isEmpty

/-- What `analyze_text` does: return the result dict, or raise the
`ValueError` of line 587 ("No API keys configured"), or raise the generic
`Exception` of line 591 ("All services unavailable"). -/
inductive AnalyzeOutcome where
  | ok (r : AnalysisResult)
  | errNoKeys
  | errAllFailed

/-- The OpenAI section and the final raise block of `analyze_text` (source
lines 567–591), reached when HuggingFace is unconfigured, when
`analyze_with_huggingface` raised, or when the HuggingFace branch itself
raised into the `except` of line 563. -/
def analyzeTail (cfg : Config) (oa : OpenAIOutcome) : AnalyzeOutcome :=
  if oaConfigured cfg then
    match analyze_with_openai oa with
    | some r => AnalyzeOutcome.ok r
    | none =>
      if hfConfigured cfg = false ∧ oaConfigured cfg = false then AnalyzeOutcome.errNoKeys
      else AnalyzeOutcome.errAllFailed
  else
    if hfConfigured cfg = false ∧ oaConfigured cfg = false then AnalyzeOutcome.errNoKeys
    else AnalyzeOutcome.errAllFailed

/-- The HuggingFace result handling of `analyze_text` (source lines
544–559): on a truthy summary different from the literal, the `is_fallback`
computation starts with `summary.split()`, which raises `AttributeError` on
a non-string summary — the exception lands in the `except` of line 563 and
control falls through to the OpenAI section; on a string summary both arms
of the `is_fallback` test `return result`, as does the `else` arm of the
outer test. -/
def hfBranch (cfg : Config) (res : AnalysisResult) (text : List Char)
    (oa : OpenAIOutcome) : AnalyzeOutcome :=
  if jTruthy res.summary = true ∧
     jEqStrLit res.summary ("Summary not available".toList) = false then
    match res.summary with
    | JVal.str s =>
      if is_fallback_summary s text = false then AnalyzeOutcome.ok res
      else AnalyzeOutcome.ok res
    | _ => analyzeTail cfg oa
  else AnalyzeOutcome.ok res

/-- `analyze_text` (source lines 517–591).  A raise inside
`analyze_with_huggingface` (stale non-sliceable summary) or inside the
result handling (non-string summary) is caught at lines 560–565 and control
falls through to the OpenAI section. -/
def analyze_text (cfg : Config) (text : List Char) (env : HFEnv)
    (oa : OpenAIOutcome) : AnalyzeOutcome :=
  if hfConfigured cfg then
    match analyze_with_huggingface text env with
    | HFResult.ok res => hfBranch cfg res text oa
    | HFResult.raised => analyzeTail cfg oa
  else analyzeTail cfg oa

/-! ## Concrete fixtures used by the claim theorems -/

/-- A concrete "valid `summary_text`" payload for the 503-then-200 scenario. -/
def exampleSummaryB : List Char :=
  "The committee approved the proposal after a long debate over project funding priorities.".toList

/-- The label mapping as the specification words it: the upper-cased label is
matched *against the token sets* {POSITIVE, POS, LABEL_1, LABEL_2} /
{NEGATIVE, NEG, LABEL_0} (set membership, not substring containment).
Stated for comparison with the source's `labelToSentiment`. -/
def specLabelTokenMap (lab : List Char) : SentimentType :=
  let u := lab.map Char.toUpper
  if u = "POSITIVE".toList ∨ u = "POS".toList ∨
     u = "LABEL_1".toList ∨ u = "LABEL_2".toList then
    SentimentType.positive
  else if u = "NEGATIVE".toList ∨ u = "NEG".toList ∨ u = "LABEL_0".toList then
    SentimentType.negative
  else SentimentType.neutral

/-- A 200 sentiment body whose single entry carries the label "composite". -/
def compositeScoresBody : JVal :=
  JVal.list [JVal.obj [("label", JVal.str "composite".toList), ("score", JVal.num 1)]]

/-- A tie-broken two-entry scores body: both entries score 1, the first is
LABEL_0 (Negative), so first-occurrence tie-breaking must yield Negative. -/
def tieScoresBody : JVal :=
  JVal.list [JVal.obj [("label", JVal.str "LABEL_0".toList), ("score", JVal.num 1)],
             JVal.obj [("label", JVal.str "LABEL_2".toList), ("score", JVal.num 1)]]

def envAllFail : HFEnv :=
  { summaryOutcomes := [CallOutcome.loading, CallOutcome.notFound],
    sentimentOutcomes := [CallOutcome.exn, CallOutcome.loading] }

/-- Concrete fixtures shared by the orchestration claims. -/
def cfgBoth : Config :=
  { hf_key := some "hf-key".toList, openai_key := some "sk-test".toList }

def cfgOpenAIOnly : Config :=
  { hf_key := none, openai_key := some "sk-live-key".toList }

def cfgOpenAIOnly2 : Config :=
  { hf_key := none, openai_key := some "sk-prod-key".toList }

def cfgHFOnly : Config :=
  { hf_key := some "hf-key-2".toList, openai_key := none }

def textShort : List Char := "Great product. I loved it.".toList

def textReport : List Char :=
  "The quarterly report shows strong growth across regions.".toList

def oaGood : OpenAIOutcome :=
  OpenAIOutcome.ok ("Summary: The reviewer describes a very positive purchasing experience with the product, praising its build quality, the shipping speed and the customer support they received afterwards.\nSentiment: Positive".toList)

/-- A 200 summary body carrying a numeric `summary_text`: the source assigns
the number, the in-loop print raises, and the truthy stale value survives
the loop. -/
def bodyStaleNum : JVal := JVal.obj [("summary_text", JVal.num 5)]

/-- An environment whose summary loop ends holding the stale number 5. -/
def envStale : HFEnv :=
  { summaryOutcomes := [CallOutcome.ok bodyStaleNum, CallOutcome.loading],
    sentimentOutcomes := [CallOutcome.loading, CallOutcome.loading] }

/-- Projection used to compare concrete OpenAI results without a decidable
equality on dynamically typed summaries. -/
def oaSummaryStrOf : Option AnalysisResult → List Char
  | some r =>
    (match r.summary with
     | JVal.str s => s
     | _ => [])
  | none => []

/-! ## Toolbox lemmas -/

theorem mem_of_getLast_eq_some {α : Type _} :
    ∀ {l : List α} {a : α}, l.getLast? = some a → a ∈ l := by
  intro l
  induction l with
  | nil => intro a h; simp [List.getLast?] at h
  | cons c rest ih =>
    intro a h
    cases rest with
    | nil =>
      simp [List.getLast?] at h
      simp [h]
    | cons d rest2 =>
      rw [List.getLast?_cons_cons] at h
      exact List.mem_cons_of_mem _ (ih h)

theorem getLastD_mem_or {α : Type _} :
    ∀ (l : List α) (d : α), l.getLastD d = d ∨ l.getLastD d ∈ l := by
  intro l
  induction l with
  | nil => intro d; left; rfl
  | cons a l ih =>
    intro d
    rw [List.getLastD_cons]
    rcases ih a with h | h
    · right; rw [h]; exact List.mem_cons_self _ _
    · right; exact List.mem_cons_of_mem _ h

theorem eq_append_drop_of_isPrefixOf :
    ∀ (w l : List Char), w.isPrefixOf l = true → l = w ++ l.drop w.length := by
  intro w
  induction w with
  | nil => intro l _; simp
  | cons a w ih =>
    intro l h
    cases l with
    | nil => simp [List.isPrefixOf] at h
    | cons c r =>
      simp only [List.isPrefixOf, Bool.and_eq_true, beq_iff_eq] at h
      obtain ⟨hac, hpre⟩ := h
      have hr := ih r hpre
      simp only [List.length_cons, List.drop_succ_cons]
      rw [hac]
      exact congrArg (c :: ·) hr

theorem anchorHere_true_false (w : List Char) (l : List Char) :
    anchorHere w true l = false := by
  simp [anchorHere]

theorem posCountAux_wordchar_prefix (w : List Char) :
    ∀ (u v : List Char), (∀ c ∈ u, isWordChar c = true) →
      posCountAux w true (u ++ v) = posCountAux w true v := by
  intro u
  induction u with
  | nil => intro v _; rfl
  | cons c u ih =>
    intro v hu
    have hc : isWordChar c = true := hu c (List.mem_cons_self _ _)
    show posCountAux w true (c :: (u ++ v)) = _
    rw [posCountAux, anchorHere_true_false, hc]
    rw [if_neg Bool.false_ne_true, Nat.zero_add]
    exact ih v (fun x hx => hu x (List.mem_cons_of_mem _ hx))

theorem scanAux_skip_wordchars (w : List Char) :
    ∀ (u : List Char), u ≠ [] → (∀ c ∈ u, isWordChar c = true) →
      ∀ (x : Bool) (v : List Char), scanAux w u.length x (u ++ v) = scanAux w 0 true v := by
  intro u
  induction u with
  | nil => intro h; exact absurd rfl h
  | cons c u ih =>
    intro _ hu x v
    have hc : isWordChar c = true := hu c (List.mem_cons_self _ _)
    show scanAux w (u.length + 1) x (c :: (u ++ v)) = _
    rw [scanAux]
    cases u with
    | nil => rw [hc]; rfl
    | cons d u2 =>
      exact ih (by simp) (fun y hy => hu y (List.mem_cons_of_mem _ hy)) _ v

/-- The `re.findall` scan and the position count agree for the nonempty
all-word-character patterns the source uses: boundary-anchored occurrences of
such a pattern can never overlap, so the non-overlapping scan misses none. -/
theorem scanAux_eq_posCountAux (w : List Char) (hw : w ≠ [])
    (hword : ∀ c ∈ w, isWordChar c = true) :
    ∀ (t : List Char) (b : Bool), scanAux w 0 b t = posCountAux w b t := by
  have main : ∀ (n : Nat) (t : List Char), t.length ≤ n → ∀ (b : Bool),
      scanAux w 0 b t = posCountAux w b t := by
    intro n
    induction n with
    | zero =>
      intro t ht b
      have h0 : t = [] := List.eq_nil_of_length_eq_zero (Nat.le_zero.mp ht)
      subst h0; rfl
    | succ n ih =>
      intro t ht b
      cases t with
      | nil => rfl
      | cons c rest =>
        have hlen : rest.length ≤ n := by
          simp only [List.length_cons] at ht; omega
        by_cases ha : anchorHere w b (c :: rest) = true
        · have hdecomp := ha
          simp only [anchorHere, Bool.and_eq_true, Bool.not_eq_true'] at hdecomp
          obtain ⟨⟨hb, hpre⟩, _⟩ := hdecomp
          have happ := eq_append_drop_of_isPrefixOf w (c :: rest) hpre
          cases w with
          | nil => exact absurd rfl hw
          | cons a w2 =>
            have hac : a = c := by
              have := congrArg (List.head? ·) happ
              simpa using this.symm
            subst hac
            have hrest : rest = w2 ++ rest.drop w2.length := by
              have := happ
              simp only [List.length_cons, List.drop_succ_cons, List.cons_append,
                List.cons.injEq] at this
              exact this.2
            have hcw : isWordChar a = true := hword a (List.mem_cons_self _ _)
            have hw2 : ∀ c2 ∈ w2, isWordChar c2 = true :=
              fun c2 hc2 => hword c2 (List.mem_cons_of_mem _ hc2)
            have hdroplen : (rest.drop w2.length).length ≤ n :=
              le_trans (by simp) hlen
            have hscan : scanAux (a :: w2) w2.length true rest
                = scanAux (a :: w2) 0 true (rest.drop w2.length) := by
              cases w2 with
              | nil => simp
              | cons d w3 =>
                conv_lhs => rw [hrest]
                exact scanAux_skip_wordchars (a :: d :: w3) (d :: w3) (by simp) hw2 true _
            have hpos : posCountAux (a :: w2) true rest
                = posCountAux (a :: w2) true (rest.drop w2.length) := by
              conv_lhs => rw [hrest]
              exact posCountAux_wordchar_prefix (a :: w2) w2 _ hw2
            rw [scanAux, if_pos ha, posCountAux, if_pos ha, hcw]
            simp only [List.length_cons, Nat.add_sub_cancel]
            rw [hscan, hpos, ih (rest.drop w2.length) hdroplen true]
        · have haf : anchorHere w b (c :: rest) = false := by
            exact Bool.not_eq_true _ ▸ (by simpa using ha)
          rw [scanAux, if_neg (by simp [haf]), posCountAux, haf,
            if_neg Bool.false_ne_true, Nat.zero_add]
          exact ih rest hlen (isWordChar c)
  intro t b
  exact main t.length t (le_refl _) b

/-- Every keyword of the source's two lists is nonempty and consists purely
of word characters. -/
theorem keywords_wordlike :
    ∀ w ∈ positive_words ++ negative_words,
      w.toList ≠ [] ∧ ∀ c ∈ w.toList, isWordChar c = true := by decide

theorem countKeyword_eq_wholeWord {w : String}
    (hw : w ∈ positive_words ++ negative_words) (t : List Char) :
    countKeyword w.toList t = wholeWordOccurrences w.toList t := by
  obtain ⟨h1, h2⟩ := keywords_wordlike w hw
  exact scanAux_eq_posCountAux w.toList h1 h2 t false

theorem foldl_add_congr (f g : String → Nat) :
    ∀ (ws : List String), (∀ w ∈ ws, f w = g w) →
      ∀ (acc : Nat), ws.foldl (fun a w => a + f w) acc = ws.foldl (fun a w => a + g w) acc := by
  intro ws
  induction ws with
  | nil => intro _ acc; rfl
  | cons w ws ih =>
    intro h acc
    simp only [List.foldl_cons]
    rw [h w (List.mem_cons_self _ _)]
    exact ih (fun x hx => h x (List.mem_cons_of_mem _ hx)) _

theorem keywordScore_eq_spec (ws : List String)
    (hws : ∀ w ∈ ws, w ∈ positive_words ++ negative_words) (t : List Char) :
    keywordScore ws t = specKeywordScore ws t := by
  unfold keywordScore specKeywordScore
  exact foldl_add_congr _ _ ws
    (fun w hw => countKeyword_eq_wholeWord (hws w hw) t) 0

theorem keywordScore_pos : ∀ (t : List Char),
    keywordScore positive_words t = specKeywordScore positive_words t :=
  fun t => keywordScore_eq_spec positive_words
    (fun _ hw => List.mem_append_left _ hw) t

theorem keywordScore_neg : ∀ (t : List Char),
    keywordScore negative_words t = specKeywordScore negative_words t :=
  fun t => keywordScore_eq_spec negative_words
    (fun _ hw => List.mem_append_right _ hw) t

/-- C5: the keyword sentiment fallback lower-cases the text, counts
whole-word (boundary-anchored, not substring) occurrences of the two fixed
term lists, and classifies by strict comparison of the two counts (Neutral on
every tie, including 0–0); in particular a text containing `"lovely-ish"`
registers no whole-word match for `"love"`. -/
theorem c5_keyword_sentiment (text : List Char) :
    (detect_sentiment_keywords text = SentimentType.positive ↔
      specKeywordScore negative_words (text.map Char.toLower)
        < specKeywordScore positive_words (text.map Char.toLower)) ∧
    (detect_sentiment_keywords text = SentimentType.negative ↔
      specKeywordScore positive_words (text.map Char.toLower)
        < specKeywordScore negative_words (text.map Char.toLower)) ∧
    (detect_sentiment_keywords text = SentimentType.neutral ↔
      specKeywordScore positive_words (text.map Char.toLower)
        = specKeywordScore negative_words (text.map Char.toLower)) ∧
    wholeWordOccurrences "love".toList "this is lovely-ish".toList = 0 ∧
    countKeyword "love".toList "this is lovely-ish".toList = 0 := by
  have hpos := keywordScore_pos (text.map Char.toLower)
  have hneg := keywordScore_neg (text.map Char.toLower)
  unfold detect_sentiment_keywords
  dsimp only
  rw [hpos, hneg]
  set p := specKeywordScore positive_words (text.map Char.toLower) with hp
  set q := specKeywordScore negative_words (text.map Char.toLower) with hq
  refine ⟨?_, ?_, ?_, by decide, by decide⟩
  · constructor
    · intro h
      by_contra hlt
      rcases Nat.lt_or_ge p q with h2 | h2
      · simp only [if_neg (by omega : ¬ q < p), if_pos h2] at h
        exact SentimentType.noConfusion h
      · have : p = q := by omega
        simp only [if_neg (by omega : ¬ q < p), if_neg (by omega : ¬ p < q)] at h
        exact SentimentType.noConfusion h
    · intro h; simp only [if_pos h]
  · constructor
    · intro h
      by_contra hlt
      rcases Nat.lt_or_ge q p with h2 | h2
      · simp only [if_pos h2] at h
        exact SentimentType.noConfusion h
      · simp only [if_neg (by omega : ¬ q < p), if_neg (by omega : ¬ p < q)] at h
        exact SentimentType.noConfusion h
    · intro h; simp only [if_neg (by omega : ¬ q < p), if_pos h]
  · constructor
    · intro h
      by_contra hne
      rcases Nat.lt_or_ge q p with h2 | h2
      · simp only [if_pos h2] at h
        exact SentimentType.noConfusion h
      · have h3 : p < q := by omega
        simp only [if_neg (by omega : ¬ q < p), if_pos h3] at h
        exact SentimentType.noConfusion h
    · intro h
      simp only [if_neg (by omega : ¬ q < p), if_neg (by omega : ¬ p < q)]

/-- C10: the negative-term list contains `"disgusting"` twice, so one
whole-word occurrence of `"disgusting"` contributes 2 to the negative count;
a text with exactly one occurrence of `"disgusting"` and exactly one
occurrence of one positive-list word (`"beautiful"`) is therefore classified
Negative. -/
theorem c10_disgusting_twice :
    negative_words.count "disgusting" = 2 ∧
    keywordScore negative_words
      "the meal was disgusting but the view was beautiful".toList = 2 ∧
    keywordScore positive_words
      "the meal was disgusting but the view was beautiful".toList = 1 ∧
    detect_sentiment_keywords
      "the meal was disgusting but the view was beautiful".toList
      = SentimentType.negative := by
  refine ⟨by decide, by decide, by decide, by decide⟩

/-! ## Cascade lemmas (C7, C8) -/

theorem eq_take_iff_append (s t : List Char) :
    s = t.take s.length ↔ ∃ u, s ++ u = t := by
  constructor
  · intro h
    refine ⟨t.drop s.length, ?_⟩
    nth_rewrite 1 [h]
    exact List.take_append_drop _ _
  · rintro ⟨u, rfl⟩
    rw [List.take_left]

/-- C8: the fallback-shape judgment of `analyze_text` holds exactly when the
summary has at most 30 whitespace-separated words, or ends with the ellipsis
marker `"..."`, or is a verbatim prefix of the input text (the source's
`summary == text[:len(summary)]` comparison is exactly list-prefix). -/
theorem c8_fallback_shape (s t : List Char) :
    is_fallback_summary s t = true ↔
      ((pySplitWS s).length ≤ 30 ∨
       (∃ u, u ++ "...".toList = s) ∨
       (∃ u, s ++ u = t)) := by
  unfold is_fallback_summary
  simp only [Bool.or_eq_true, decide_eq_true_eq, beq_iff_eq,
    List.isSuffixOf_iff_suffix]
  constructor
  · rintro ((h | h) | h)
    · exact Or.inl h
    · exact Or.inr (Or.inl h)
    · exact Or.inr (Or.inr ((eq_take_iff_append s t).mp h))
  · rintro (h | h | h)
    · exact Or.inl (Or.inl h)
    · exact Or.inl (Or.inr h)
    · exact Or.inr ((eq_take_iff_append s t).mpr h)

/-! ## Sentiment normalization (C6) -/

/-- Python `max(..., key=...)` keeps the first maximum: the list splits as
`l1 ++ max :: l2` with every entry of `l1` strictly below the maximum, and
the maximum's score dominates the whole list. -/
theorem pyMaxBy_spec (p : JVal × ℚ) (ps : List (JVal × ℚ)) :
    ∃ l1 l2, p :: ps = l1 ++ pyMaxBy p ps :: l2 ∧
      (∀ x ∈ l1, x.2 < (pyMaxBy p ps).2) ∧
      (∀ x ∈ p :: ps, x.2 ≤ (pyMaxBy p ps).2) := by
  induction ps generalizing p with
  | nil =>
    refine ⟨[], [], rfl, by simp, ?_⟩
    intro x hx
    simp only [List.mem_singleton] at hx
    subst hx
    exact le_refl _
  | cons x ps ih =>
    by_cases hx : p.2 < x.2
    · have hstep : pyMaxBy p (x :: ps) = pyMaxBy x ps := by
        simp [pyMaxBy, List.foldl_cons, if_pos hx]
      obtain ⟨l1, l2, heq, hlt, hle⟩ := ih x
      rw [hstep]
      refine ⟨p :: l1, l2, ?_, ?_, ?_⟩
      · show p :: (x :: ps) = p :: (l1 ++ pyMaxBy x ps :: l2)
        rw [heq]
      · intro y hy
        rcases List.mem_cons.mp hy with rfl | hy2
        · exact lt_of_lt_of_le hx (hle x (List.mem_cons_self _ _))
        · exact hlt y hy2
      · intro y hy
        rcases List.mem_cons.mp hy with rfl | hy2
        · exact le_of_lt (lt_of_lt_of_le hx (hle x (List.mem_cons_self _ _)))
        · exact hle y hy2
    · have hxle : x.2 ≤ p.2 := le_of_not_lt hx
      have hstep : pyMaxBy p (x :: ps) = pyMaxBy p ps := by
        simp [pyMaxBy, List.foldl_cons, if_neg hx]
      obtain ⟨l1, l2, heq, hlt, hle⟩ := ih p
      rw [hstep]
      cases l1 with
      | nil =>
        simp only [List.nil_append, List.cons.injEq] at heq
        obtain ⟨hm, hl2⟩ := heq
        refine ⟨[], x :: ps, ?_, by simp, ?_⟩
        · simp [← hm]
        · intro y hy
          rcases List.mem_cons.mp hy with rfl | hy2
          · exact hle y (List.mem_cons_self _ _)
          · rcases List.mem_cons.mp hy2 with rfl | hy3
            · rw [← hm]; exact hxle
            · exact hle y (List.mem_cons_of_mem _ hy3)
      | cons a l1 =>
        simp only [List.cons_append, List.cons.injEq] at heq
        obtain ⟨hpa, hps⟩ := heq
        subst hpa
        refine ⟨p :: x :: l1, l2, ?_, ?_, ?_⟩
        · exact congrArg (fun z => p :: x :: z) hps
        · intro y hy
          rcases List.mem_cons.mp hy with h1 | hy2
          · rw [h1]; exact hlt p (List.mem_cons_self _ _)
          · rcases List.mem_cons.mp hy2 with h2 | hy3
            · rw [h2]; exact lt_of_le_of_lt hxle (hlt p (List.mem_cons_self _ _))
            · exact hlt y (List.mem_cons_of_mem _ hy3)
        · intro y hy
          rcases List.mem_cons.mp hy with h1 | hy2
          · rw [h1]; exact hle p (List.mem_cons_self _ _)
          · rcases List.mem_cons.mp hy2 with h2 | hy3
            · rw [h2]; exact le_trans hxle (hle p (List.mem_cons_self _ _))
            · exact hle y (List.mem_cons_of_mem _ hy3)

/-- C6 counterexample: the source normalizes labels by *substring
containment*, not token-set membership: the label `"composite"` (upper-cased
`"COMPOSITE"`, which contains `"POS"` but is in neither token set) is mapped
to Positive and stops the cascade, whereas the claim's token-set mapping
sends it to Neutral (and would continue the cascade). -/
theorem c6_counterexample :
    labelToSentiment "composite".toList = SentimentType.positive ∧
    specLabelTokenMap "composite".toList = SentimentType.neutral ∧
    sentimentCascade [CallOutcome.ok compositeScoresBody] = SentimentType.positive := by
  refine ⟨by decide, by decide, by decide⟩

/-- C6 amended: the normalizer selects the score-maximal entry with ties
broken by first occurrence (`pyMaxBy_spec` shape), maps its label by
case-insensitive *substring containment* of the positive tokens first and the
negative tokens second (`labelToSentiment`), and the cascade stops at the
current 200-candidate exactly when that mapping is Positive or Negative,
advancing past it when it is Neutral. -/
theorem c6_amended (d : JVal) (rest : List CallOutcome) (e : JVal)
    (es : List JVal) (p : JVal × ℚ) (ps : List (JVal × ℚ)) (lab : List Char)
    (h1 : extractScoresList d = some (JVal.list (e :: es)))
    (h2 : scoreEntries (e :: es) = some (p :: ps))
    (h3 : labelOf (pyMaxBy p ps).1 = some lab) :
    (∃ l1 l2, p :: ps = l1 ++ pyMaxBy p ps :: l2 ∧
      (∀ x ∈ l1, x.2 < (pyMaxBy p ps).2) ∧
      (∀ x ∈ p :: ps, x.2 ≤ (pyMaxBy p ps).2)) ∧
    (labelToSentiment lab = SentimentType.neutral →
      sentimentCascade (CallOutcome.ok d :: rest) = sentimentCascade rest) ∧
    (labelToSentiment lab ≠ SentimentType.neutral →
      sentimentCascade (CallOutcome.ok d :: rest) = labelToSentiment lab) := by
  have hcore : sentAttemptCore d =
      match labelToSentiment lab with
      | SentimentType.positive => some SentimentType.positive
      | SentimentType.negative => some SentimentType.negative
      | SentimentType.neutral => none := by
    simp only [sentAttemptCore, h1, h2, h3]
  refine ⟨pyMaxBy_spec p ps, ?_, ?_⟩
  · intro hneu
    rw [sentimentCascade]
    have hatt : sentimentAttempt (CallOutcome.ok d) = none := by
      show sentAttemptCore d = none
      rw [hcore, hneu]
    rw [hatt]
  · intro hne
    rw [sentimentCascade]
    have hatt : sentimentAttempt (CallOutcome.ok d) = some (labelToSentiment lab) := by
      show sentAttemptCore d = some (labelToSentiment lab)
      rw [hcore]
      cases hl : labelToSentiment lab with
      | positive => rfl
      | negative => rfl
      | neutral => exact absurd hl hne
    rw [hatt]

theorem c6_witness :
    sentimentCascade [CallOutcome.ok tieScoresBody, CallOutcome.loading]
      = labelToSentiment "LABEL_0".toList :=
  (c6_amended tieScoresBody [CallOutcome.loading] _ _ _ _ _ rfl rfl rfl).2.2 (by decide)

/-! ## List toolbox for the extractive fallback (C4, C9) -/

theorem mem_of_mem_dropWhile {p : Char → Bool} :
    ∀ {l : List Char} {a : Char}, a ∈ l.dropWhile p → a ∈ l := by
  intro l
  induction l with
  | nil => intro a h; simp [List.dropWhile] at h
  | cons c r ih =>
    intro a h
    rw [List.dropWhile_cons] at h
    by_cases hc : p c = true
    · rw [if_pos hc] at h
      exact List.mem_cons_of_mem _ (ih h)
    · rw [if_neg hc] at h
      exact h

theorem mem_of_mem_pyStrip {l : List Char} {a : Char} (h : a ∈ pyStrip l) : a ∈ l := by
  unfold pyStrip at h
  rw [List.mem_reverse] at h
  have h2 := mem_of_mem_dropWhile h
  rw [List.mem_reverse] at h2
  exact mem_of_mem_dropWhile h2

/-- The first sentence produced by splitting on `[.!?]+` never contains a
terminal-punctuation character, hence never ends with one: the appended
period of `_generate_fallback_summary` is unavoidable in that branch. -/
theorem endsPunct_first_sentence (t : List Char) :
    endsPunct (pyStrip (t.takeWhile (fun c => !isPunct c))) = false := by
  rw [endsPunct]
  cases h : (pyStrip (t.takeWhile (fun c => !isPunct c))).getLast? with
  | none => rfl
  | some c =>
    have hmem := mem_of_mem_pyStrip (mem_of_getLast_eq_some h)
    have := List.mem_takeWhile_imp hmem
    simpa using this

theorem wordsAux_word_ne_nil :
    ∀ (l cur : List Char) (w : List Char), w ∈ wordsAux cur l → w ≠ [] := by
  intro l
  induction l with
  | nil =>
    intro cur w hw
    rw [wordsAux] at hw
    by_cases hc : cur = []
    · rw [if_pos hc] at hw; simp at hw
    · rw [if_neg hc] at hw
      simp only [List.mem_singleton] at hw
      rw [hw]
      simpa using hc
  | cons c r ih =>
    intro cur w hw
    rw [wordsAux] at hw
    by_cases hws : isWS c = true
    · rw [if_pos hws] at hw
      by_cases hc : cur = []
      · rw [if_pos hc] at hw
        exact ih [] w hw
      · rw [if_neg hc] at hw
        rcases List.mem_cons.mp hw with h1 | h2
        · rw [h1]; simpa using hc
        · exact ih [] w h2
    · rw [if_neg hws] at hw
      exact ih (c :: cur) w hw

theorem wordsAux_all_ws :
    ∀ (u : List Char), (∀ c ∈ u, isWS c = true) →
      ∀ (cur : List Char), wordsAux cur u = if cur = [] then [] else [cur.reverse] := by
  intro u
  induction u with
  | nil => intro _ cur; rfl
  | cons c u ih =>
    intro hu cur
    have hc : isWS c = true := hu c (List.mem_cons_self _ _)
    have hu2 : ∀ x ∈ u, isWS x = true := fun x hx => hu x (List.mem_cons_of_mem _ hx)
    rw [wordsAux, if_pos hc]
    by_cases hcur : cur = []
    · rw [if_pos hcur, ih hu2 [], if_pos rfl, if_pos hcur]
    · rw [if_neg hcur, ih hu2 [], if_pos rfl, if_neg hcur]

theorem wordsAux_append_ws :
    ∀ (l : List Char) (u : List Char), (∀ c ∈ u, isWS c = true) →
      ∀ (cur : List Char), wordsAux cur (l ++ u) = wordsAux cur l := by
  intro l
  induction l with
  | nil =>
    intro u hu cur
    rw [List.nil_append, wordsAux_all_ws u hu cur, wordsAux]
  | cons c r ih =>
    intro u hu cur
    rw [List.cons_append, wordsAux, wordsAux]
    by_cases hws : isWS c = true
    · rw [if_pos hws, if_pos hws]
      by_cases hcur : cur = []
      · rw [if_pos hcur, if_pos hcur, ih u hu []]
      · rw [if_neg hcur, if_neg hcur, ih u hu []]
    · rw [if_neg hws, if_neg hws, ih u hu (c :: cur)]

theorem wordsAux_dropWhile_ws (l : List Char) :
    wordsAux [] (l.dropWhile isWS) = wordsAux [] l := by
  induction l with
  | nil => rfl
  | cons c r ih =>
    rw [List.dropWhile_cons]
    by_cases hws : isWS c = true
    · rw [if_pos hws, ih, wordsAux, if_pos hws, if_pos rfl]
    · rw [if_neg hws]

/-- `str.split()` is invariant under `str.strip()`. -/
theorem pySplitWS_pyStrip (l : List Char) : pySplitWS (pyStrip l) = pySplitWS l := by
  unfold pySplitWS
  set A := l.dropWhile isWS with hA
  have hsplit : A.reverse.takeWhile isWS ++ A.reverse.dropWhile isWS = A.reverse :=
    List.takeWhile_append_dropWhile _ _
  have hA2 : A = pyStrip l ++ (A.reverse.takeWhile isWS).reverse := by
    have h2 := congrArg List.reverse hsplit
    rw [List.reverse_append, List.reverse_reverse] at h2
    exact h2.symm
  have hu : ∀ c ∈ (A.reverse.takeWhile isWS).reverse, isWS c = true := by
    intro c hc
    rw [List.mem_reverse] at hc
    exact List.mem_takeWhile_imp hc
  calc wordsAux [] (pyStrip l)
      = wordsAux [] (pyStrip l ++ (A.reverse.takeWhile isWS).reverse) :=
        (wordsAux_append_ws _ _ hu []).symm
    _ = wordsAux [] A := by rw [← hA2]
    _ = wordsAux [] l := wordsAux_dropWhile_ws l

theorem wordsAux_ne_nil :
    ∀ (l cur : List Char), cur ≠ [] → wordsAux cur l ≠ [] := by
  intro l
  induction l with
  | nil =>
    intro cur hcur
    rw [wordsAux, if_neg hcur]
    simp
  | cons c r ih =>
    intro cur hcur
    rw [wordsAux]
    by_cases hws : isWS c = true
    · rw [if_pos hws, if_neg hcur]
      simp
    · rw [if_neg hws]
      exact ih (c :: cur) (by simp)

theorem pySplitWS_eq_nil_iff :
    ∀ (l : List Char), pySplitWS l = [] ↔ ∀ c ∈ l, isWS c = true := by
  intro l
  unfold pySplitWS
  induction l with
  | nil => simp [wordsAux]
  | cons c r ih =>
    rw [wordsAux]
    by_cases hws : isWS c = true
    · rw [if_pos hws, if_pos rfl]
      constructor
      · intro h x hx
        rcases List.mem_cons.mp hx with h1 | h2
        · rw [h1]; exact hws
        · exact (ih.mp h) x h2
      · intro h
        exact ih.mpr (fun x hx => h x (List.mem_cons_of_mem _ hx))
    · rw [if_neg hws]
      constructor
      · intro h
        exact absurd h (wordsAux_ne_nil r [c] (by simp))
      · intro h
        exact absurd (h c (List.mem_cons_self _ _)) hws

theorem pyStrip_eq_nil_iff (l : List Char) :
    pyStrip l = [] ↔ ∀ c ∈ l, isWS c = true := by
  unfold pyStrip
  rw [List.reverse_eq_nil_iff, List.dropWhile_eq_nil_iff]
  constructor
  · intro h c hc
    by_cases hmem : c ∈ l.dropWhile isWS
    · rw [← List.mem_reverse] at hmem
      exact h c hmem
    · have hsplit := List.takeWhile_append_dropWhile isWS l
      have : c ∈ l.takeWhile isWS ++ l.dropWhile isWS := by rw [hsplit]; exact hc
      rcases List.mem_append.mp this with h1 | h2
      · exact List.mem_takeWhile_imp h1
      · exact absurd h2 hmem
  · intro h c hc
    rw [List.mem_reverse] at hc
    exact h c (mem_of_mem_dropWhile hc)

theorem pyJoin_length_words :
    ∀ (l cur : List Char), (pyJoin (wordsAux cur l)).length ≤ cur.length + l.length := by
  intro l
  induction l with
  | nil =>
    intro cur
    rw [wordsAux]
    by_cases hc : cur = []
    · rw [if_pos hc]; simp [pyJoin]
    · rw [if_neg hc]; simp [pyJoin]
  | cons c r ih =>
    intro cur
    rw [wordsAux]
    by_cases hws : isWS c = true
    · rw [if_pos hws]
      by_cases hc : cur = []
      · rw [if_pos hc]
        have := ih []
        simp only [List.length_nil, Nat.zero_add] at this
        simp only [List.length_cons]
        omega
      · rw [if_neg hc]
        cases hrest : wordsAux [] r with
        | nil =>
          show (pyJoin [cur.reverse]).length ≤ _
          simp only [pyJoin, List.length_reverse, List.length_cons]
          omega
        | cons w ws =>
          show (cur.reverse ++ ' ' :: pyJoin (w :: ws)).length ≤ _
          have := ih []
          rw [hrest] at this
          simp only [List.length_nil, Nat.zero_add] at this
          simp only [List.length_append, List.length_reverse, List.length_cons]
          omega
    · rw [if_neg hws]
      have := ih (c :: cur)
      simp only [List.length_cons] at this ⊢
      omega

theorem mem_pyJoin_of_mem :
    ∀ (ws : List (List Char)) (w : List Char) (c : Char),
      w ∈ ws → c ∈ w → c ∈ pyJoin ws := by
  intro ws
  induction ws with
  | nil => intro w c hw; simp at hw
  | cons v vs ih =>
    intro w c hw hc
    rcases List.mem_cons.mp hw with h1 | h2
    · cases vs with
      | nil =>
        show c ∈ v
        rw [← h1]; exact hc
      | cons v2 vs2 =>
        show c ∈ v ++ ' ' :: pyJoin (v2 :: vs2)
        exact List.mem_append_left _ (h1 ▸ hc)
    · cases vs with
      | nil => simp at h2
      | cons v2 vs2 =>
        show c ∈ v ++ ' ' :: pyJoin (v2 :: vs2)
        exact List.mem_append_right _ (List.mem_cons_of_mem _ (ih w c h2 hc))

theorem wordsAux_covers :
    ∀ (l cur : List Char) (c : Char), (c ∈ cur ∨ c ∈ l) → isWS c = false →
      ∃ w ∈ wordsAux cur l, c ∈ w := by
  intro l
  induction l with
  | nil =>
    intro cur c hc _
    rcases hc with h1 | h2
    · have hcur : cur ≠ [] := by intro h0; rw [h0] at h1; simp at h1
      rw [wordsAux, if_neg hcur]
      exact ⟨cur.reverse, List.mem_singleton.mpr rfl, List.mem_reverse.mpr h1⟩
    · simp at h2
  | cons d r ih =>
    intro cur c hc hcws
    rw [wordsAux]
    by_cases hws : isWS d = true
    · have hcd : c ≠ d := by
        intro h0; rw [h0] at hcws; rw [hcws] at hws; exact Bool.false_ne_true hws
      have hcr : c ∈ cur ∨ c ∈ r := by
        rcases hc with h1 | h2
        · exact Or.inl h1
        · rcases List.mem_cons.mp h2 with h3 | h4
          · exact absurd h3 hcd
          · exact Or.inr h4
      rw [if_pos hws]
      by_cases hcur : cur = []
      · rw [if_pos hcur]
        rcases hcr with h1 | h2
        · rw [hcur] at h1; simp at h1
        · exact ih [] c (Or.inr h2) hcws
      · rw [if_neg hcur]
        rcases hcr with h1 | h2
        · exact ⟨cur.reverse, List.mem_cons_self _ _, List.mem_reverse.mpr h1⟩
        · obtain ⟨w, hw1, hw2⟩ := ih [] c (Or.inr h2) hcws
          exact ⟨w, List.mem_cons_of_mem _ hw1, hw2⟩
    · rw [if_neg hws]
      apply ih (d :: cur) c ?_ hcws
      rcases hc with h1 | h2
      · exact Or.inl (List.mem_cons_of_mem _ h1)
      · rcases List.mem_cons.mp h2 with h3 | h4
        · exact Or.inl (h3 ▸ List.mem_cons_self _ _)
        · exact Or.inr h4

theorem dropWhile_head_not (p : Char → Bool) :
    ∀ (l : List Char), l.dropWhile p = [] ∨
      ∃ c r, l.dropWhile p = c :: r ∧ p c = false := by
  intro l
  induction l with
  | nil => exact Or.inl rfl
  | cons c r ih =>
    rw [List.dropWhile_cons]
    by_cases hc : p c = true
    · rw [if_pos hc]; exact ih
    · rw [if_neg hc]
      exact Or.inr ⟨c, r, rfl, Bool.not_eq_true _ ▸ (by simpa using hc)⟩

theorem dropWhile_idem (p : Char → Bool) (l : List Char) :
    (l.dropWhile p).dropWhile p = l.dropWhile p := by
  rcases dropWhile_head_not p l with h | ⟨c, r, h, hc⟩
  · rw [h]; rfl
  · rw [h, List.dropWhile_cons, if_neg (by simp [hc])]

theorem pyStrip_idem (l : List Char) : pyStrip (pyStrip l) = pyStrip l := by
  by_cases hnil : pyStrip l = []
  · rw [hnil]; rfl
  · set A := l.dropWhile isWS with hA
    set B := A.reverse.dropWhile isWS with hB
    have hS : pyStrip l = B.reverse := rfl
    have hBne : B ≠ [] := by
      intro h0
      apply hnil
      rw [hS, h0]
      rfl
    have hAne : A ≠ [] := by
      intro h0
      apply hBne
      rw [hB, h0]
      rfl
    -- the head of A is not whitespace
    obtain ⟨a, ar, hAeq, haws⟩ : ∃ a ar, A = a :: ar ∧ isWS a = false := by
      rcases dropWhile_head_not isWS l with h | ⟨c, r, h, hc⟩
      · exact absurd (hA ▸ h) hAne
      · exact ⟨c, r, hA ▸ h, hc⟩
    -- the last element of B is the head of A
    have hlastB : B.getLast? = some a := by
      have hsplit : A.reverse.takeWhile isWS ++ B = A.reverse :=
        List.takeWhile_append_dropWhile _ _
      have h1 : B.getLast? = A.reverse.getLast? := by
        rw [← hsplit, List.getLast?_append_of_ne_nil _ hBne]
      rw [h1, List.getLast?_reverse, hAeq]
      rfl
    -- hence the head of `pyStrip l` is not whitespace
    have hheadS : (pyStrip l).head? = some a := by
      rw [hS, List.head?_reverse]
      exact hlastB
    obtain ⟨sr, hSeq⟩ : ∃ sr, pyStrip l = a :: sr := by
      cases hScase : pyStrip l with
      | nil => exact absurd hScase hnil
      | cons x xs =>
        rw [hScase] at hheadS
        simp only [List.head?_cons, Option.some.injEq] at hheadS
        exact ⟨xs, by rw [hheadS]⟩
    have hdropS : (pyStrip l).dropWhile isWS = pyStrip l := by
      rw [hSeq, List.dropWhile_cons, if_neg (by simp [haws])]
    show ((((pyStrip l).dropWhile isWS).reverse).dropWhile isWS).reverse = pyStrip l
    rw [hdropS, hS, List.reverse_reverse, hB, dropWhile_idem]

theorem takeWhile_eq_self_of_all (p : Char → Bool) :
    ∀ (l : List Char), (∀ c ∈ l, p c = true) → l.takeWhile p = l := by
  intro l
  induction l with
  | nil => intro _; rfl
  | cons c r ih =>
    intro h
    rw [List.takeWhile_cons, if_pos (h c (List.mem_cons_self _ _))]
    rw [ih (fun x hx => h x (List.mem_cons_of_mem _ hx))]

theorem pyJoin_words_ne_nil {t : List Char} (hwords : pySplitWS t ≠ []) :
    pyJoin ((pySplitWS t).take 30) ≠ [] := by
  obtain ⟨w, ws, hwe⟩ : ∃ w ws, pySplitWS t = w :: ws := by
    cases hc : pySplitWS t with
    | nil => exact absurd hc hwords
    | cons w ws => exact ⟨w, ws, rfl⟩
  have hwne : w ≠ [] := by
    apply wordsAux_word_ne_nil t [] w
    show w ∈ pySplitWS t
    rw [hwe]
    exact List.mem_cons_self _ _
  rw [hwe]
  have htake : (w :: ws).take 30 = w :: ws.take 29 := rfl
  rw [htake]
  cases hcase : ws.take 29 with
  | nil =>
    show w ≠ []
    exact hwne
  | cons x xs =>
    show w ++ ' ' :: pyJoin (x :: xs) ≠ []
    simp

theorem generate_fallback_summary_ne_nil (text : List Char) :
    generate_fallback_summary text ≠ [] := by
  unfold generate_fallback_summary
  by_cases h0 : text = [] ∨ pyStrip text = []
  · rw [if_pos h0]; decide
  · rw [if_neg h0]
    dsimp only
    by_cases h1 : 15 < (pyStrip ((pyStrip text).takeWhile (fun c => !isPunct c))).length
    · rw [if_pos h1]
      by_cases h2 : endsPunct (pyStrip ((pyStrip text).takeWhile (fun c => !isPunct c))) = true
      · rw [if_pos h2]
        intro hcontra
        rw [hcontra] at h1
        simp at h1
      · rw [if_neg h2]
        intro hcontra
        have := congrArg List.length hcontra
        simp at this
    · rw [if_neg h1]
      have hwords : pySplitWS (pyStrip text) ≠ [] := by
        rw [pySplitWS_pyStrip]
        intro hw
        exact h0 (Or.inr ((pyStrip_eq_nil_iff text).mpr ((pySplitWS_eq_nil_iff text).mp hw)))
      by_cases h3 : 30 < (pySplitWS (pyStrip text)).length
      · rw [if_pos h3]
        simp [List.append_eq_nil]
      · rw [if_neg h3]
        exact pyJoin_words_ne_nil hwords

theorem isWS_eq_false_of_isPunct {c : Char} (h : isPunct c = true) : isWS c = false := by
  simp only [isPunct, Bool.or_eq_true, decide_eq_true_eq] at h
  rcases h with (h | h) | h <;> (rw [h]; decide)

/-- The extractive fallback can never return the literal
`"Summary not available"`: the first-sentence branch and the ellipsis branch
both end in a period, and in the plain word branch the join can only have 21
characters if the (then punctuation-free) stripped text itself is at least
that long — which would have routed it to the first-sentence branch. -/
theorem generate_fallback_summary_ne_sna (text : List Char) :
    generate_fallback_summary text ≠ "Summary not available".toList := by
  have hLlast : ("Summary not available".toList).getLast? = some 'e' := by decide
  have hLpunct : ∀ c ∈ "Summary not available".toList, isPunct c = false := by decide
  have hLlen : ("Summary not available".toList).length = 21 := by decide
  unfold generate_fallback_summary
  by_cases h0 : text = [] ∨ pyStrip text = []
  · rw [if_pos h0]; decide
  · rw [if_neg h0]
    dsimp only
    by_cases h1 : 15 < (pyStrip ((pyStrip text).takeWhile (fun c => !isPunct c))).length
    · rw [if_pos h1]
      rw [if_neg (show ¬ endsPunct (pyStrip ((pyStrip text).takeWhile
          (fun c => !isPunct c))) = true by
        rw [endsPunct_first_sentence]; exact Bool.false_ne_true)]
      intro hcontra
      have hlast := congrArg List.getLast? hcontra
      rw [List.getLast?_concat, hLlast] at hlast
      exact absurd hlast (by decide)
    · rw [if_neg h1]
      by_cases h3 : 30 < (pySplitWS (pyStrip text)).length
      · rw [if_pos h3]
        intro hcontra
        have hlast := congrArg List.getLast? hcontra
        have h4 : (pyJoin ((pySplitWS (pyStrip text)).take 30) ++ "...".toList).getLast?
            = some '.' := by
          rw [show "...".toList = ['.', '.'] ++ ['.'] from rfl, ← List.append_assoc,
            List.getLast?_concat]
        rw [h4, hLlast] at hlast
        exact absurd hlast (by decide)
      · rw [if_neg h3]
        intro hcontra
        have hle30 : (pySplitWS (pyStrip text)).length ≤ 30 := le_of_not_lt h3
        have htake : (pySplitWS (pyStrip text)).take 30 = pySplitWS (pyStrip text) :=
          List.take_of_length_le hle30
        rw [htake] at hcontra
        have hnopunct : ∀ c ∈ pyStrip text, isPunct c = false := by
          intro c hc
          cases hb : isPunct c with
          | false => rfl
          | true =>
            have hws : isWS c = false := isWS_eq_false_of_isPunct hb
            obtain ⟨w, hw1, hw2⟩ := wordsAux_covers (pyStrip text) [] c (Or.inr hc) hws
            have hmem : c ∈ pyJoin (pySplitWS (pyStrip text)) :=
              mem_pyJoin_of_mem _ w c hw1 hw2
            rw [hcontra] at hmem
            rw [hLpunct c hmem] at hb
            exact absurd hb (by decide)
        have htw : (pyStrip text).takeWhile (fun c => !isPunct c) = pyStrip text := by
          apply takeWhile_eq_self_of_all
          intro c hc
          rw [hnopunct c hc]
          rfl
        have hfs : pyStrip ((pyStrip text).takeWhile (fun c => !isPunct c)) = pyStrip text := by
          rw [htw, pyStrip_idem]
        have hjlen : (pyJoin (pySplitWS (pyStrip text))).length ≤ (pyStrip text).length := by
          have hbound := pyJoin_length_words (pyStrip text) []
          simp only [List.length_nil, Nat.zero_add] at hbound
          exact hbound
        rw [hcontra, hLlen] at hjlen
        rw [hfs] at h1
        omega

/-! ## Non-emptiness of cascade results (C9, C3) -/

theorem pyOrDefault_ne_nil (x : Option (List Char)) : pyOrDefault x ≠ [] := by
  cases x with
  | none => decide
  | some s =>
    rw [pyOrDefault]
    by_cases h : s = []
    · rw [if_pos h]; decide
    · rw [if_neg h]; exact h

theorem sentiment_trichotomy (s : SentimentType) :
    s = SentimentType.positive ∨ s = SentimentType.negative ∨ s = SentimentType.neutral := by
  cases s
  · exact Or.inl rfl
  · exact Or.inr (Or.inl rfl)
  · exact Or.inr (Or.inr rfl)

/-! ## Claim theorems: C4, C9 -/

/-- C4 counterexample: a first sentence of exactly 16 characters is *not*
returned as-is — the split segment can never end in terminal punctuation, so
the period is appended and the result has 17 characters. -/
theorem c4_counterexample :
    generate_fallback_summary "abcdefghijklmnop".toList = "abcdefghijklmnop.".toList ∧
    generate_fallback_summary "abcdefghijklmnop".toList ≠ "abcdefghijklmnop".toList := by
  refine ⟨by decide, by decide⟩

/-- C4 amended: empty or whitespace-only input returns the literal
`"No text provided"`; otherwise, with the first segment of the `[.!?]+`
split trimmed, a segment longer than 15 characters is returned *with a
period always appended* (split segments never carry terminal punctuation —
in particular a 16-character first sentence comes back with 17 characters);
otherwise the first 30 whitespace-separated words of the input are joined by
single spaces, with `"..."` appended exactly when the input has more than 30
words. -/
theorem c4_amended (text : List Char) :
    (pyStrip text = [] → generate_fallback_summary text = "No text provided".toList) ∧
    (pyStrip text ≠ [] →
      (15 < (pyStrip ((pyStrip text).takeWhile (fun c => !isPunct c))).length →
        generate_fallback_summary text
          = pyStrip ((pyStrip text).takeWhile (fun c => !isPunct c)) ++ ['.']) ∧
      ((pyStrip ((pyStrip text).takeWhile (fun c => !isPunct c))).length ≤ 15 →
        generate_fallback_summary text
          = pyJoin ((pySplitWS text).take 30)
            ++ (if 30 < (pySplitWS text).length then "...".toList else []))) := by
  constructor
  · intro h
    unfold generate_fallback_summary
    rw [if_pos (Or.inr h)]
  · intro hne
    have h0 : ¬(text = [] ∨ pyStrip text = []) := by
      rintro (h | h)
      · exact hne (by rw [h]; rfl)
      · exact hne h
    constructor
    · intro h1
      unfold generate_fallback_summary
      rw [if_neg h0]
      dsimp only
      rw [if_pos h1]
      rw [if_neg (show ¬ endsPunct (pyStrip ((pyStrip text).takeWhile
          (fun c => !isPunct c))) = true by
        rw [endsPunct_first_sentence]; exact Bool.false_ne_true)]
    · intro h1
      unfold generate_fallback_summary
      rw [if_neg h0]
      dsimp only
      rw [if_neg (not_lt.mpr h1)]
      rw [pySplitWS_pyStrip]
      by_cases h3 : 30 < (pySplitWS text).length
      · rw [if_pos h3, if_pos h3]
      · rw [if_neg h3, if_neg h3, List.append_nil]

theorem c4_witness :
    15 < (pyStrip ((pyStrip "abcdefghijklmnopq".toList).takeWhile
      (fun c => !isPunct c))).length ∧
    generate_fallback_summary "abcdefghijklmnopq".toList
      = pyStrip ((pyStrip "abcdefghijklmnopq".toList).takeWhile
          (fun c => !isPunct c)) ++ ['.'] :=
  ⟨by decide, ((c4_amended "abcdefghijklmnopq".toList).2 (by decide)).1 (by decide)⟩

/-! ## Summary-loop helper lemmas (C1, C2, C3, C7) -/

theorem listFindSome_cons {α β : Type _} (f : α → Option β) (a : α) (l : List α) :
    (a :: l).findSome? f =
      (match f a with
       | some b => some b
       | none => l.findSome? f) := rfl

theorem breakStr_checkBreak {v : Option JVal} {s : List Char}
    (h : breakStr (summaryCheckBreak v) = some s) :
    v = some (JVal.str s) ∧ s ≠ [] := by
  cases v with
  | none => exact absurd h (by simp [summaryCheckBreak, breakStr])
  | some w =>
    cases w with
    | str t =>
      cases t with
      | nil => exact absurd h (by simp [summaryCheckBreak, jTruthy, breakStr])
      | cons a t' =>
        have ht : breakStr (summaryCheckBreak (some (JVal.str (a :: t')))) =
            some (a :: t') := rfl
        rw [ht] at h
        obtain rfl : a :: t' = s := Option.some.inj h
        exact ⟨rfl, by simp⟩
    | num q =>
      cases hq : jTruthy (JVal.num q) with
      | false => exact absurd h (by simp [summaryCheckBreak, hq, breakStr])
      | true => exact absurd h (by simp [summaryCheckBreak, hq, jSliceable, breakStr])
    | list xs =>
      cases hq : jTruthy (JVal.list xs) with
      | false => exact absurd h (by simp [summaryCheckBreak, hq, breakStr])
      | true => exact absurd h (by simp [summaryCheckBreak, hq, jSliceable, breakStr])
    | obj fs =>
      cases hq : jTruthy (JVal.obj fs) with
      | false => exact absurd h (by simp [summaryCheckBreak, hq, breakStr])
      | true => exact absurd h (by simp [summaryCheckBreak, hq, jSliceable, breakStr])
    | other => exact absurd h (by simp [summaryCheckBreak, jTruthy, breakStr])

theorem applyEffect_break {eff : ParseEffect} {s : List Char}
    (h : breakStr (applyEffect Option.none eff) = some s) :
    s ≠ [] ∧ ∀ s0 : Option JVal, applyEffect s0 eff = (some (JVal.str s), true) := by
  cases eff with
  | skip => exact absurd h (by simp [applyEffect, breakStr])
  | keep => exact absurd h (by simp [applyEffect, summaryCheckBreak, breakStr])
  | assign v =>
    obtain ⟨hv, hs⟩ := breakStr_checkBreak (v := v) h
    subst hv
    refine ⟨hs, fun s0 => ?_⟩
    show summaryCheckBreak (some (JVal.str s)) = (some (JVal.str s), true)
    cases s with
    | nil => exact absurd rfl hs
    | cons a t => rfl

theorem summaryAttempt_spec {o : CallOutcome} {s : List Char}
    (h : summaryAttempt o = some s) :
    s ≠ [] ∧ ∀ s0 : Option JVal, summaryStep s0 o = (some (JVal.str s), true) := by
  cases o with
  | exn => exact Option.noConfusion h
  | ok d =>
    obtain ⟨hs, hstep⟩ := @applyEffect_break (parseSummary200 d) _ h
    exact ⟨hs, fun s0 => hstep s0⟩
  | okBadJson => exact Option.noConfusion h
  | loading => exact Option.noConfusion h
  | notFound => exact Option.noConfusion h
  | gone b =>
    cases b with
    | none => exact Option.noConfusion h
    | some d =>
      obtain ⟨hs, hstep⟩ := @applyEffect_break (parseSummary410 d) _ h
      exact ⟨hs, fun s0 => hstep s0⟩
  | otherStatus => exact Option.noConfusion h

theorem applyEffect_clean_no_break {eff : ParseEffect} {s0 : Option JVal}
    (hc : effectClean eff = true)
    (hn : breakStr (applyEffect Option.none eff) = none)
    (h0 : sTruthy s0 = false) :
    (applyEffect s0 eff).2 = false ∧ sTruthy (applyEffect s0 eff).1 = false := by
  cases eff with
  | skip => exact ⟨rfl, h0⟩
  | keep =>
    cases s0 with
    | none => exact ⟨rfl, rfl⟩
    | some v =>
      have hv : jTruthy v = false := h0
      simp [applyEffect, summaryCheckBreak, hv, sTruthy]
  | assign v =>
    cases v with
    | none => exact ⟨rfl, rfl⟩
    | some w =>
      cases w with
      | str t =>
        cases t with
        | nil => exact ⟨rfl, rfl⟩
        | cons a t' =>
          exact absurd hn (by simp [applyEffect, summaryCheckBreak, jTruthy,
            jSliceable, breakStr])
      | num q => exact absurd hc (by simp [effectClean, jIsStr])
      | list xs => exact absurd hc (by simp [effectClean, jIsStr])
      | obj fs => exact absurd hc (by simp [effectClean, jIsStr])
      | other => exact absurd hc (by simp [effectClean, jIsStr])

theorem summaryStep_clean_no_break {o : CallOutcome} {s0 : Option JVal}
    (hc : strClean o = true) (hn : summaryAttempt o = none)
    (h0 : sTruthy s0 = false) :
    (summaryStep s0 o).2 = false ∧ sTruthy (summaryStep s0 o).1 = false := by
  cases o with
  | exn => exact ⟨rfl, h0⟩
  | ok d => exact applyEffect_clean_no_break hc hn h0
  | okBadJson => exact ⟨rfl, h0⟩
  | loading => exact ⟨rfl, h0⟩
  | notFound => exact ⟨rfl, h0⟩
  | gone b =>
    cases b with
    | none => exact ⟨rfl, h0⟩
    | some d => exact applyEffect_clean_no_break hc hn h0
  | otherStatus => exact ⟨rfl, h0⟩

theorem summaryScan_clean_found {s : List Char} :
    ∀ (outs : List CallOutcome),
      (∀ o ∈ outs, strClean o = true) →
      outs.findSome? summaryAttempt = some s →
      ∀ s0, sTruthy s0 = false →
        summaryScan s0 outs = some (JVal.str s) ∧ s ≠ [] := by
  intro outs
  induction outs with
  | nil => intro _ hf; exact Option.noConfusion hf
  | cons o rest ih =>
    intro hc hf s0 h0
    cases ha : summaryAttempt o with
    | some t =>
      simp only [listFindSome_cons, ha] at hf
      obtain rfl : t = s := Option.some.inj hf
      obtain ⟨hne, hstep⟩ := summaryAttempt_spec ha
      refine ⟨?_, hne⟩
      show (match summaryStep s0 o with
            | (s2, true) => s2
            | (s2, false) => summaryScan s2 rest) = some (JVal.str t)
      rw [hstep s0]
    | none =>
      simp only [listFindSome_cons, ha] at hf
      obtain ⟨hb, hst⟩ := summaryStep_clean_no_break (hc o (List.mem_cons_self o rest)) ha h0
      have hp : summaryStep s0 o = ((summaryStep s0 o).1, false) := by rw [← hb]
      have e1 : summaryScan s0 (o :: rest) =
          (match summaryStep s0 o with
           | (s2, true) => s2
           | (s2, false) => summaryScan s2 rest) := rfl
      rw [e1, hp]
      exact ih (fun x hx => hc x (List.mem_cons_of_mem o hx)) hf _ hst

theorem summaryScan_clean_none :
    ∀ (outs : List CallOutcome),
      (∀ o ∈ outs, strClean o = true) →
      outs.findSome? summaryAttempt = none →
      ∀ s0, sTruthy s0 = false → sTruthy (summaryScan s0 outs) = false := by
  intro outs
  induction outs with
  | nil => intro _ _ s0 h0; exact h0
  | cons o rest ih =>
    intro hc hf s0 h0
    have ha : summaryAttempt o = none := by
      cases ha : summaryAttempt o with
      | none => rfl
      | some t =>
        simp only [listFindSome_cons, ha] at hf
        exact Option.noConfusion hf
    simp only [listFindSome_cons, ha] at hf
    obtain ⟨hb, hst⟩ := summaryStep_clean_no_break (hc o (List.mem_cons_self o rest)) ha h0
    have hp : summaryStep s0 o = ((summaryStep s0 o).1, false) := by rw [← hb]
    have e1 : summaryScan s0 (o :: rest) =
        (match summaryStep s0 o with
         | (s2, true) => s2
         | (s2, false) => summaryScan s2 rest) := rfl
    rw [e1, hp]
    exact ih (fun x hx => hc x (List.mem_cons_of_mem o hx)) hf _ hst

theorem nil_clean : ∀ x ∈ ([] : List CallOutcome), strClean x = true := by
  intro x hx
  cases hx

theorem cons_clean {o : CallOutcome} {l : List CallOutcome}
    (h1 : strClean o = true) (h2 : ∀ x ∈ l, strClean x = true) :
    ∀ x ∈ o :: l, strClean x = true := by
  intro x hx
  rcases List.mem_cons.mp hx with rfl | hx
  · exact h1
  · exact h2 x hx

theorem envAllFail_clean : ∀ o ∈ envAllFail.summaryOutcomes, strClean o = true :=
  cons_clean rfl (cons_clean rfl nil_clean)

/-! ## Summary/guard/sentiment helper lemmas (C1, C2, C3, C9) -/

theorem jTruthy_fallback (text : List Char) :
    jTruthy (JVal.str (generate_fallback_summary text)) = true := by
  have h := generate_fallback_summary_ne_nil text
  cases hfb : generate_fallback_summary text with
  | nil => exact absurd hfb h
  | cons a t => rfl

theorem hfSummaryVal_truthy (text : List Char) (env : HFEnv) :
    jTruthy (hfSummaryVal text env) = true := by
  cases hscan : summaryScan Option.none env.summaryOutcomes with
  | none =>
    simp only [hfSummaryVal, hscan]
    exact jTruthy_fallback text
  | some v =>
    cases ht : jTruthy v with
    | false =>
      simp only [hfSummaryVal, hscan, ht]
      simp only [Bool.false_eq_true, if_false]
      exact jTruthy_fallback text
    | true =>
      simp only [hfSummaryVal, hscan, ht, if_true]

theorem hfSummaryGuarded_eq (text : List Char) (env : HFEnv) :
    hfSummaryGuarded text env = hfSummaryVal text env := by
  unfold hfSummaryGuarded
  rw [if_pos (hfSummaryVal_truthy text env)]

theorem hfSummaryGuarded_truthy (text : List Char) (env : HFEnv) :
    jTruthy (hfSummaryGuarded text env) = true := by
  rw [hfSummaryGuarded_eq]
  exact hfSummaryVal_truthy text env

theorem jEqStrLit_true {v : JVal} {s : List Char} (h : jEqStrLit v s = true) :
    v = JVal.str s := by
  cases v with
  | str t =>
    have h' : (t == s) = true := h
    rw [eq_of_beq h']
  | num q => exact Bool.noConfusion h
  | list xs => exact Bool.noConfusion h
  | obj fs => exact Bool.noConfusion h
  | other => exact Bool.noConfusion h

theorem hfSummaryVal_lit (text : List Char) (env : HFEnv)
    (h : jEqStrLit (hfSummaryVal text env) ("Summary not available".toList) = true) :
    summaryScan Option.none env.summaryOutcomes =
      some (JVal.str ("Summary not available".toList)) := by
  have hv := jEqStrLit_true h
  cases hscan : summaryScan Option.none env.summaryOutcomes with
  | none =>
    exfalso
    simp only [hfSummaryVal, hscan] at hv
    exact generate_fallback_summary_ne_sna text (JVal.str.inj hv)
  | some w =>
    cases ht : jTruthy w with
    | true =>
      simp only [hfSummaryVal, hscan] at hv
      rw [if_pos ht] at hv
      rw [hv]
    | false =>
      exfalso
      simp only [hfSummaryVal, hscan] at hv
      rw [if_neg (by rw [ht]; exact Bool.false_ne_true)] at hv
      exact generate_fallback_summary_ne_sna text (JVal.str.inj hv)

theorem hfSentiment_detect (text : List Char) (env : HFEnv)
    (h1 : sentimentCascade env.sentimentOutcomes = SentimentType.neutral)
    (h2 : jEqStrLit (hfSummaryVal text env) ("Summary not available".toList) = false) :
    hfSentiment text env = detect_sentiment_keywords text := by
  simp only [hfSentiment, hfSummaryGuarded_eq]
  rw [if_pos ⟨h1, h2⟩]

theorem hfSummaryVal_clean_found {text : List Char} {env : HFEnv} {s : List Char}
    (hc : ∀ o ∈ env.summaryOutcomes, strClean o = true)
    (hf : env.summaryOutcomes.findSome? summaryAttempt = some s) :
    s ≠ [] ∧ hfSummaryVal text env = JVal.str s := by
  obtain ⟨hscan, hs⟩ := summaryScan_clean_found env.summaryOutcomes hc hf Option.none rfl
  refine ⟨hs, ?_⟩
  have ht : jTruthy (JVal.str s) = true := by
    cases s with
    | nil => exact absurd rfl hs
    | cons a t => rfl
  simp only [hfSummaryVal, hscan, ht, if_true]

theorem hfSummaryVal_clean_none {text : List Char} {env : HFEnv}
    (hc : ∀ o ∈ env.summaryOutcomes, strClean o = true)
    (hf : env.summaryOutcomes.findSome? summaryAttempt = none) :
    hfSummaryVal text env = JVal.str (generate_fallback_summary text) := by
  have hst := summaryScan_clean_none env.summaryOutcomes hc hf Option.none rfl
  cases hscan : summaryScan Option.none env.summaryOutcomes with
  | none => simp only [hfSummaryVal, hscan]
  | some v =>
    rw [hscan] at hst
    have hv : jTruthy v = false := hst
    simp only [hfSummaryVal, hscan, hv]
    simp only [Bool.false_eq_true, if_false]

theorem hfSummaryGuarded_clean {text : List Char} {env : HFEnv}
    (hc : ∀ o ∈ env.summaryOutcomes, strClean o = true) :
    ∃ s : List Char, s ≠ [] ∧ hfSummaryGuarded text env = JVal.str s := by
  cases hf : env.summaryOutcomes.findSome? summaryAttempt with
  | some t =>
    obtain ⟨ht, hv⟩ := hfSummaryVal_clean_found hc hf
    exact ⟨t, ht, by rw [hfSummaryGuarded_eq, hv]⟩
  | none =>
    refine ⟨generate_fallback_summary text, generate_fallback_summary_ne_nil text, ?_⟩
    rw [hfSummaryGuarded_eq, hfSummaryVal_clean_none hc hf]

theorem analyze_with_huggingface_clean {text : List Char} {env : HFEnv}
    (hc : ∀ o ∈ env.summaryOutcomes, strClean o = true) :
    ∃ s : List Char, s ≠ [] ∧
      analyze_with_huggingface text env =
        HFResult.ok { summary := JVal.str s, sentiment := hfSentiment text env } := by
  obtain ⟨s, hs, hg⟩ := @hfSummaryGuarded_clean text env hc
  refine ⟨s, hs, ?_⟩
  simp only [analyze_with_huggingface]
  rw [hg]
  rw [if_neg (by rintro ⟨-, h2⟩; simp [jSliceable] at h2)]

theorem analyze_hf_ok_inv {text : List Char} {env : HFEnv} {r : AnalysisResult}
    (h : analyze_with_huggingface text env = HFResult.ok r) :
    r.summary = hfSummaryGuarded text env ∧ jTruthy r.summary = true := by
  simp only [analyze_with_huggingface] at h
  split at h
  · exact HFResult.noConfusion h
  · cases h
    exact ⟨rfl, hfSummaryGuarded_truthy text env⟩

/-! ## Orchestration helper lemmas (C1, C2, C3) -/

theorem hfBranch_str (cfg : Config) (s : List Char) (sent : SentimentType)
    (text : List Char) (oa : OpenAIOutcome) :
    hfBranch cfg { summary := JVal.str s, sentiment := sent } text oa =
      AnalyzeOutcome.ok { summary := JVal.str s, sentiment := sent } := by
  unfold hfBranch
  split
  · have e : (if is_fallback_summary s text = false
        then AnalyzeOutcome.ok { summary := JVal.str s, sentiment := sent }
        else AnalyzeOutcome.ok { summary := JVal.str s, sentiment := sent }) =
        AnalyzeOutcome.ok { summary := JVal.str s, sentiment := sent } := ite_self _
    exact e
  · rfl

theorem hfBranch_nonstr (cfg : Config) (v : JVal) (sent : SentimentType)
    (text : List Char) (oa : OpenAIOutcome)
    (ht : jTruthy v = true) (hs : jIsStr v = false) :
    hfBranch cfg { summary := v, sentiment := sent } text oa = analyzeTail cfg oa := by
  have hne : jEqStrLit v ("Summary not available".toList) = false := by
    cases v with
    | str t => exact Bool.noConfusion hs
    | num q => rfl
    | list xs => rfl
    | obj fs => rfl
    | other => rfl
  unfold hfBranch
  rw [if_pos ⟨ht, hne⟩]
  cases v with
  | str t => exact Bool.noConfusion hs
  | num q => rfl
  | list xs => rfl
  | obj fs => rfl
  | other => rfl

theorem analyzeTail_ne_errNoKeys (cfg : Config) (oa : OpenAIOutcome)
    (h : hfConfigured cfg = true ∨ oaConfigured cfg = true) :
    analyzeTail cfg oa ≠ AnalyzeOutcome.errNoKeys := by
  have hno : ¬ (hfConfigured cfg = false ∧ oaConfigured cfg = false) := by
    rintro ⟨h1, h2⟩
    rcases h with h | h
    · rw [h1] at h; exact Bool.false_ne_true h
    · rw [h2] at h; exact Bool.false_ne_true h
  unfold analyzeTail
  split
  · cases hao : analyze_with_openai oa with
    | some r => simp [hao]
    | none => simp [hao, hno]
  · simp [hno]

theorem hfBranch_ne_errNoKeys (cfg : Config) (res : AnalysisResult) (text : List Char)
    (oa : OpenAIOutcome) (h : hfConfigured cfg = true ∨ oaConfigured cfg = true) :
    hfBranch cfg res text oa ≠ AnalyzeOutcome.errNoKeys := by
  obtain ⟨v, sent⟩ := res
  cases v with
  | str s =>
    rw [hfBranch_str]
    simp
  | num q =>
    unfold hfBranch
    split
    · exact analyzeTail_ne_errNoKeys cfg oa h
    · simp
  | list xs =>
    unfold hfBranch
    split
    · exact analyzeTail_ne_errNoKeys cfg oa h
    · simp
  | obj fs =>
    unfold hfBranch
    split
    · exact analyzeTail_ne_errNoKeys cfg oa h
    · simp
  | other =>
    unfold hfBranch
    split
    · exact analyzeTail_ne_errNoKeys cfg oa h
    · simp

theorem analyze_text_ne_errNoKeys (cfg : Config) (text : List Char) (env : HFEnv)
    (oa : OpenAIOutcome) (h : hfConfigured cfg = true ∨ oaConfigured cfg = true) :
    analyze_text cfg text env oa ≠ AnalyzeOutcome.errNoKeys := by
  unfold analyze_text
  split
  · cases hhf : analyze_with_huggingface text env with
    | ok res =>
      simp only [hhf]
      exact hfBranch_ne_errNoKeys cfg res text oa h
    | raised =>
      simp only [hhf]
      exact analyzeTail_ne_errNoKeys cfg oa h
  · exact analyzeTail_ne_errNoKeys cfg oa h

theorem analyze_text_hf_ok {cfg : Config} {text : List Char} {env : HFEnv}
    {res : AnalysisResult} (hhf : hfConfigured cfg = true)
    (heq : analyze_with_huggingface text env = HFResult.ok res) (oa : OpenAIOutcome) :
    analyze_text cfg text env oa = hfBranch cfg res text oa := by
  unfold analyze_text
  rw [if_pos hhf, heq]

theorem analyze_text_hf_raised {cfg : Config} {text : List Char} {env : HFEnv}
    (hhf : hfConfigured cfg = true)
    (heq : analyze_with_huggingface text env = HFResult.raised) (oa : OpenAIOutcome) :
    analyze_text cfg text env oa = analyzeTail cfg oa := by
  unfold analyze_text
  rw [if_pos hhf, heq]

theorem parse_openai_summary_str (content : List Char) :
    ∃ s : List Char, s ≠ [] ∧ (parse_openai_content content).summary = JVal.str s := by
  refine ⟨_, ?_, rfl⟩
  exact pyOrDefault_ne_nil _

/-! ## Claim theorems: C7, C1, C2, C3, C9 -/

/-- C7 counterexample: the summary loop is *not* a clean first-usable-value
cascade over arbitrary payloads.  A 200 body whose `summary_text` is the
number 5 yields no usable value (the in-loop print of the truthy
non-sliceable value raises and is caught), yet the assignment persists as a
stale `summary` past the remaining iterations, and the retained value later
makes `analyze_with_huggingface` itself raise at the final log line — a
per-model failure escaping the function. -/
theorem c7_counterexample :
    summaryAttempt (CallOutcome.ok bodyStaleNum) = none ∧
    summaryScan Option.none envStale.summaryOutcomes = some (JVal.num 5) ∧
    analyze_with_huggingface textShort envStale = HFResult.raised :=
  ⟨rfl, rfl, rfl⟩

/-- C7 amended: a 503 candidate is skipped immediately (the loop state is
untouched, there is no retry and no backoff in the untimed model), and over
candidates whose bodies can only assign strings (or None) to the `summary`
variable the cascade is exception-free and returns precisely the first
candidate's usable string value (`List.findSome?` characterization, both
directions); in the concrete scenario where model A answers 503 and model B
answers 200 with a valid `summary_text`, the loop result is B's value. -/
theorem c7_amended (outs : List CallOutcome) (s0 : Option JVal)
    (hc : ∀ o ∈ outs, strClean o = true) :
    (∀ rest : List CallOutcome,
       summaryScan s0 (CallOutcome.loading :: rest) = summaryScan s0 rest) ∧
    (∀ s : List Char, outs.findSome? summaryAttempt = some s →
       summaryScan Option.none outs = some (JVal.str s)) ∧
    (outs.findSome? summaryAttempt = none →
       sTruthy (summaryScan Option.none outs) = false) ∧
    summaryScan Option.none
        [CallOutcome.loading,
         CallOutcome.ok (JVal.obj [("summary_text", JVal.str exampleSummaryB)])] =
      some (JVal.str exampleSummaryB) := by
  refine ⟨fun rest => rfl, ?_, ?_, rfl⟩
  · intro s hf
    exact (summaryScan_clean_found outs hc hf Option.none rfl).1
  · intro hf
    exact summaryScan_clean_none outs hc hf Option.none rfl

theorem c7_witness :
    (∀ o ∈ [CallOutcome.loading,
        CallOutcome.ok (JVal.obj [("summary_text", JVal.str exampleSummaryB)])],
      strClean o = true) ∧
    summaryScan Option.none
        [CallOutcome.loading,
         CallOutcome.ok (JVal.obj [("summary_text", JVal.str exampleSummaryB)])] =
      some (JVal.str exampleSummaryB) :=
  ⟨cons_clean rfl (cons_clean rfl nil_clean),
   (c7_amended
      [CallOutcome.loading,
       CallOutcome.ok (JVal.obj [("summary_text", JVal.str exampleSummaryB)])]
      Option.none (cons_clean rfl (cons_clean rfl nil_clean))).2.1
     exampleSummaryB rfl⟩

/-- C1 counterexample: with both providers configured, the primary's cascade
fails entirely, so its summary is the extractive fallback — fallback-shaped
per the 4.1 heuristic — yet `analyze_text` returns the primary's result for
every secondary outcome (a successful secondary and a raising secondary give
the identical result), and the returned summary differs from what the
secondary would have produced: the secondary is never attempted. -/
theorem c1_counterexample :
    hfConfigured cfgBoth = true ∧
    oaConfigured cfgBoth = true ∧
    is_fallback_summary (generate_fallback_summary textReport) textReport = true ∧
    analyze_text cfgBoth textReport envAllFail oaGood =
      AnalyzeOutcome.ok
        { summary := JVal.str (generate_fallback_summary textReport),
          sentiment := detect_sentiment_keywords textReport } ∧
    analyze_text cfgBoth textReport envAllFail OpenAIOutcome.exn =
      AnalyzeOutcome.ok
        { summary := JVal.str (generate_fallback_summary textReport),
          sentiment := detect_sentiment_keywords textReport } ∧
    oaSummaryStrOf (analyze_with_openai oaGood) ≠ generate_fallback_summary textReport :=
  ⟨rfl, rfl, rfl, rfl, rfl, by decide⟩

/-- C1 amended: when the primary (HuggingFace) provider is configured and
returns a result whose summary is a genuine string, `analyze_text` returns
that result as-is — the `is_fallback` heuristic is computed but both of its
branches return, so the secondary (OpenAI) provider is never attempted for a
string summary, fallback-shaped or not.  The secondary *is* fallen through
to exactly when the primary call raises (stale non-sliceable summary) or
when its returned summary is a truthy non-string value (then
`summary.split()` in the result handling raises into the `except` and the
OpenAI section runs). -/
theorem c1_amended (cfg : Config) (text : List Char) (env : HFEnv)
    (oa : OpenAIOutcome) (hhf : hfConfigured cfg = true) :
    (∀ (s : List Char) (sent : SentimentType),
       analyze_with_huggingface text env =
           HFResult.ok { summary := JVal.str s, sentiment := sent } →
       analyze_text cfg text env oa =
         AnalyzeOutcome.ok { summary := JVal.str s, sentiment := sent }) ∧
    (∀ (v : JVal) (sent : SentimentType), jIsStr v = false →
       analyze_with_huggingface text env = HFResult.ok { summary := v, sentiment := sent } →
       analyze_text cfg text env oa = analyzeTail cfg oa) ∧
    (analyze_with_huggingface text env = HFResult.raised →
       analyze_text cfg text env oa = analyzeTail cfg oa) := by
  refine ⟨?_, ?_, ?_⟩
  · intro s sent heq
    rw [analyze_text_hf_ok hhf heq oa]
    exact hfBranch_str cfg s sent text oa
  · intro v sent hv heq
    rw [analyze_text_hf_ok hhf heq oa]
    have ht : jTruthy v = true := (analyze_hf_ok_inv heq).2
    exact hfBranch_nonstr cfg v sent text oa ht hv
  · intro heq
    exact analyze_text_hf_raised hhf heq oa

theorem c1_witness :
    hfConfigured cfgBoth = true ∧
    analyze_with_huggingface textReport envAllFail =
      HFResult.ok
        { summary := JVal.str (generate_fallback_summary textReport),
          sentiment := detect_sentiment_keywords textReport } ∧
    analyze_text cfgBoth textReport envAllFail oaGood =
      AnalyzeOutcome.ok
        { summary := JVal.str (generate_fallback_summary textReport),
          sentiment := detect_sentiment_keywords textReport } :=
  ⟨rfl, rfl,
   (c1_amended cfgBoth textReport envAllFail oaGood rfl).1
     (generate_fallback_summary textReport) (detect_sentiment_keywords textReport) rfl⟩

/-- C2 counterexample: `analyze_text` raises with at least one credential
configured.  With only the secondary (OpenAI) credential configured and the
secondary call failing, the generic line-591 Exception is raised; and with
only the primary (HuggingFace) credential configured, a stale non-sliceable
summary makes `analyze_with_huggingface` raise, the handler falls through to
the unconfigured OpenAI section, and line 591 raises again. -/
theorem c2_counterexample :
    oaConfigured cfgOpenAIOnly = true ∧
    analyze_text cfgOpenAIOnly textShort envAllFail OpenAIOutcome.exn =
      AnalyzeOutcome.errAllFailed ∧
    hfConfigured cfgHFOnly = true ∧
    analyze_text cfgHFOnly textShort envStale OpenAIOutcome.exn =
      AnalyzeOutcome.errAllFailed :=
  ⟨rfl, rfl, rfl, rfl⟩

/-- C2 amended: the no-keys ValueError is raised if and only if zero
provider credentials are configured, and then no upstream outcome is
consulted (the result is the same for every environment).  When the primary
credential is configured and the upstream summary bodies are string-clean,
every lower-level failure is absorbed and a result is returned.  But the
absorption is not unconditional: with only the secondary credential and a
failing secondary call, and likewise with the primary raising on a stale
non-sliceable summary while no secondary is configured, `analyze_text`
raises the generic all-services Exception. -/
theorem c2_amended (cfg : Config) (text : List Char) (env : HFEnv) (oa : OpenAIOutcome) :
    (analyze_text cfg text env oa = AnalyzeOutcome.errNoKeys ↔
       hfConfigured cfg = false ∧ oaConfigured cfg = false) ∧
    (hfConfigured cfg = false ∧ oaConfigured cfg = false →
       ∀ (env2 : HFEnv) (oa2 : OpenAIOutcome),
         analyze_text cfg text env2 oa2 = analyze_text cfg text env oa) ∧
    ((∀ o ∈ env.summaryOutcomes, strClean o = true) → hfConfigured cfg = true →
       ∃ r, analyze_text cfg text env oa = AnalyzeOutcome.ok r) ∧
    (hfConfigured cfg = false → oaConfigured cfg = true →
       analyze_text cfg text env OpenAIOutcome.exn = AnalyzeOutcome.errAllFailed) ∧
    (hfConfigured cfg = true → oaConfigured cfg = false →
       analyze_with_huggingface text env = HFResult.raised →
       analyze_text cfg text env oa = AnalyzeOutcome.errAllFailed) := by
  refine ⟨?_, ?_, ?_, ?_, ?_⟩
  · constructor
    · intro he
      cases h1 : hfConfigured cfg with
      | true => exact absurd he (analyze_text_ne_errNoKeys cfg text env oa (Or.inl h1))
      | false =>
        cases h2 : oaConfigured cfg with
        | true => exact absurd he (analyze_text_ne_errNoKeys cfg text env oa (Or.inr h2))
        | false => exact ⟨rfl, rfl⟩

    · rintro ⟨h1, h2⟩
      simp [analyze_text, h1, analyzeTail, h2]
  · rintro ⟨h1, h2⟩ env2 oa2
    have e : ∀ (e2 : HFEnv) (o2 : OpenAIOutcome),
        analyze_text cfg text e2 o2 = AnalyzeOutcome.errNoKeys := by
      intro e2 o2
      simp [analyze_text, h1, analyzeTail, h2]
    rw [e env2 oa2, e env oa]
  · intro hclean hhf
    obtain ⟨s, hs, heq⟩ := analyze_with_huggingface_clean hclean
    refine ⟨{ summary := JVal.str s, sentiment := hfSentiment text env }, ?_⟩
    rw [analyze_text_hf_ok hhf heq oa]
    exact hfBranch_str cfg s (hfSentiment text env) text oa
  · intro h1 h2
    simp [analyze_text, h1, analyzeTail, h2, analyze_with_openai]
  · intro hhf hoa hraised
    rw [analyze_text_hf_raised hhf hraised oa]
    simp [analyzeTail, hoa, hhf]

theorem c2_witness :
    (∀ o ∈ envAllFail.summaryOutcomes, strClean o = true) ∧
    hfConfigured cfgBoth = true ∧
    (∃ r, analyze_text cfgBoth textShort envAllFail oaGood = AnalyzeOutcome.ok r) :=
  ⟨envAllFail_clean, rfl,
   (c2_amended cfgBoth textShort envAllFail oaGood).2.2.1 envAllFail_clean rfl⟩

/-- C3 counterexample: with only the secondary (OpenAI) credential
configured and the secondary call failing, `analyze_text` raises the generic
Exception instead of returning any result. -/
theorem c3_counterexample :
    oaConfigured cfgOpenAIOnly2 = true ∧
    hfConfigured cfgOpenAIOnly2 = false ∧
    analyze_text cfgOpenAIOnly2 textShort envAllFail OpenAIOutcome.exn =
      AnalyzeOutcome.errAllFailed :=
  ⟨rfl, rfl, rfl⟩

/-- C3 amended: when the primary (HuggingFace) credential is configured and
every upstream summary body is string-clean (can only assign strings or None
to the `summary` variable), `analyze_text` returns, for every input text and
every combination of upstream outcomes, a result whose summary is a
non-empty string and whose sentiment is one of Positive, Negative, Neutral.
When only the secondary credential is configured the same holds whenever the
secondary call returns; if that single call fails, `analyze_text` raises
instead of returning a result. -/
theorem c3_amended (cfg : Config) (text : List Char) (env : HFEnv) :
    (hfConfigured cfg = true → (∀ o ∈ env.summaryOutcomes, strClean o = true) →
      ∀ oa : OpenAIOutcome, ∃ (s : List Char) (sent : SentimentType), s ≠ [] ∧
        analyze_text cfg text env oa =
          AnalyzeOutcome.ok { summary := JVal.str s, sentiment := sent } ∧
        (sent = SentimentType.positive ∨ sent = SentimentType.negative ∨
         sent = SentimentType.neutral)) ∧
    (hfConfigured cfg = false → oaConfigured cfg = true →
      ∀ content : List Char, ∃ (s : List Char) (sent : SentimentType), s ≠ [] ∧
        analyze_text cfg text env (OpenAIOutcome.ok content) =
          AnalyzeOutcome.ok { summary := JVal.str s, sentiment := sent } ∧
        (sent = SentimentType.positive ∨ sent = SentimentType.negative ∨
         sent = SentimentType.neutral)) ∧
    (hfConfigured cfg = false → oaConfigured cfg = true →
      analyze_text cfg text env OpenAIOutcome.exn = AnalyzeOutcome.errAllFailed) := by
  refine ⟨?_, ?_, ?_⟩
  · intro hhf hclean oa
    obtain ⟨s, hs, heq⟩ := analyze_with_huggingface_clean hclean
    refine ⟨s, hfSentiment text env, hs, ?_, sentiment_trichotomy _⟩
    rw [analyze_text_hf_ok hhf heq oa]
    exact hfBranch_str cfg s (hfSentiment text env) text oa
  · intro h1 h2 content
    obtain ⟨s, hs, hsum⟩ := parse_openai_summary_str content
    refine ⟨s, (parse_openai_content content).sentiment, hs, ?_, sentiment_trichotomy _⟩
    have e : analyze_text cfg text env (OpenAIOutcome.ok content) =
        AnalyzeOutcome.ok (parse_openai_content content) := by
      simp [analyze_text, h1, analyzeTail, h2, analyze_with_openai]
    rw [e, ← hsum]
  · intro h1 h2
    simp [analyze_text, h1, analyzeTail, h2, analyze_with_openai]

theorem c3_witness :
    hfConfigured cfgHFOnly = true ∧
    (∀ o ∈ envAllFail.summaryOutcomes, strClean o = true) ∧
    (∃ (s : List Char) (sent : SentimentType), s ≠ [] ∧
      analyze_text cfgHFOnly textShort envAllFail OpenAIOutcome.exn =
        AnalyzeOutcome.ok { summary := JVal.str s, sentiment := sent } ∧
      (sent = SentimentType.positive ∨ sent = SentimentType.negative ∨
       sent = SentimentType.neutral)) :=
  ⟨rfl, envAllFail_clean,
   (c3_amended cfgHFOnly textShort envAllFail).1 rfl envAllFail_clean OpenAIOutcome.exn⟩

/-- C9: the extractive fallback is non-empty for every input, so the summary
value after the local-fallback step is always truthy and the
`"Summary not available"` substitution branch is unreachable (the guarded
summary equals the unguarded one); the placeholder comparison can hold only
if the model loop itself ended with that exact literal string; and whenever
the sentiment cascade ends Neutral and the placeholder comparison fails, the
keyword sentiment fallback is invoked. -/
theorem c9_fallback_nonempty (text : List Char) (env : HFEnv) :
    generate_fallback_summary text ≠ [] ∧
    jTruthy (hfSummaryVal text env) = true ∧
    hfSummaryGuarded text env = hfSummaryVal text env ∧
    (jEqStrLit (hfSummaryVal text env) ("Summary not available".toList) = true →
      summaryScan Option.none env.summaryOutcomes =
        some (JVal.str ("Summary not available".toList))) ∧
    (sentimentCascade env.sentimentOutcomes = SentimentType.neutral →
      jEqStrLit (hfSummaryVal text env) ("Summary not available".toList) = false →
      hfSentiment text env = detect_sentiment_keywords text) :=
  ⟨generate_fallback_summary_ne_nil text,
   hfSummaryVal_truthy text env,
   hfSummaryGuarded_eq text env,
   hfSummaryVal_lit text env,
   hfSentiment_detect text env⟩

theorem c9_witness :
    sentimentCascade envAllFail.sentimentOutcomes = SentimentType.neutral ∧
    jEqStrLit (hfSummaryVal textShort envAllFail) ("Summary not available".toList) = false ∧
    hfSentiment textShort envAllFail = detect_sentiment_keywords textShort :=
  ⟨rfl, rfl, (c9_fallback_nonempty textShort envAllFail).2.2.2.2 rfl rfl⟩
